import Mathlib

/-!
# Random-art expression trees (`32-random-art-algorithm/operations.go`)

A shallow embedding of the operation node model and of the operation factory
`pickOperation`.

* `float64` is a type parameter `F` of the evaluation, which uses only its arithmetic
  operations and its comparison `<`.  It is read in two ways: as a linear ordered field
  (the rationals for the executable examples), where every value is a finite number, and
  as `FloatVal`, where the infinities and NaN are values too, with the arithmetic and the
  comparisons of IEEE 754 on them.  The properties that NaN or an infinity can break are
  stated on `FloatVal`.
* The functions of Go's `math` package that the program calls (`Sqrt`, `Hypot`, `Mod`,
  `Pow`, `Abs`) are not part of the repository; they are taken as a parameter `GoMath F`.
* A `[]float64` is a `List F`; an index expression that would panic in Go makes the
  evaluation return `none`.
* A node and the nodes reachable through its `inputs` field form a finite tree, the
  inductive type `Operation F`.  `SetInputs` returns the updated node.
* `*rand.Rand` is a parameter `Rand G F`: a state type `G` with the two methods the
  program calls, each returning the drawn value and the next state.
* The source file holds the operations factory `pickOperation` but not its caller, the
  recursive tree builder; `build` follows the description of the builder in the
  specification and calls `pickOperation` for every node.
-/

namespace RandomArt

/-- The functions of Go's `math` package called by the program. -/
structure GoMath (F : Type) where
  /-- `math.Sqrt` -/
  Sqrt : F → F
  /-- `math.Hypot` -/
  Hypot : F → F → F
  /-- `math.Mod` -/
  Mod : F → F → F
  /-- `math.Pow` -/
  Pow : F → F → F
  /-- `math.Abs` -/
  Abs : F → F

/-- The implementations of the `Operation` interface, each with its struct fields. -/
inductive Operation (F : Type) where
  | OpVarX : Operation F
  | OpVarY : Operation F
  | OpConstant (constant : F) : Operation F
  | OpColorMix (inputs : List (Operation F)) : Operation F
  | OpCircle (centerX centerY : F) : Operation F
  | OpInverse (inputs : List (Operation F)) : Operation F
  | OpSum (inputs : List (Operation F)) : Operation F
  | OpProduct (inputs : List (Operation F)) : Operation F
  | OpMod (inputs : List (Operation F)) : Operation F
  | OpPerChannelMask (inputs : List (Operation F)) (constant : F) : Operation F
  | OpBinaryMask (inputs : List (Operation F)) (constant : F) : Operation F
  | OpSmoothMix (inputs : List (Operation F)) (constant : F) : Operation F
  | OpWell (inputs : List (Operation F)) : Operation F
  | OpTent (inputs : List (Operation F)) : Operation F

namespace Operation

variable {F : Type}

/-- The method `InputsCount` of each implementation. -/
def InputsCount : Operation F → Nat
  | OpVarX => 0
  | OpVarY => 0
  | OpConstant _ => 0
  | OpColorMix _ => 3
  | OpCircle _ _ => 0
  | OpInverse _ => 1
  | OpSum _ => 2
  | OpProduct _ => 2
  | OpMod _ => 2
  | OpPerChannelMask _ _ => 3
  | OpBinaryMask _ _ => 3
  | OpSmoothMix _ _ => 3
  | OpWell _ => 1
  | OpTent _ => 1

/-- The method `SetInputs`: it stores the slice in the `inputs` field, and does nothing
for the four implementations without that field. -/
def SetInputs : Operation F → List (Operation F) → Operation F
  | OpVarX, _ => OpVarX
  | OpVarY, _ => OpVarY
  | OpConstant c, _ => OpConstant c
  | OpColorMix _, inputs => OpColorMix inputs
  | OpCircle cx cy, _ => OpCircle cx cy
  | OpInverse _, inputs => OpInverse inputs
  | OpSum _, inputs => OpSum inputs
  | OpProduct _, inputs => OpProduct inputs
  | OpMod _, inputs => OpMod inputs
  | OpPerChannelMask _ c, inputs => OpPerChannelMask inputs c
  | OpBinaryMask _ c, inputs => OpBinaryMask inputs c
  | OpSmoothMix _ c, inputs => OpSmoothMix inputs c
  | OpWell _, inputs => OpWell inputs
  | OpTent _, inputs => OpTent inputs

/-- The field `inputs` of a node: the attached children (none for the implementations
without that field). -/
def inputs : Operation F → List (Operation F)
  | OpVarX => []
  | OpVarY => []
  | OpConstant _ => []
  | OpColorMix inputs => inputs
  | OpCircle _ _ => []
  | OpInverse inputs => inputs
  | OpSum inputs => inputs
  | OpProduct inputs => inputs
  | OpMod inputs => inputs
  | OpPerChannelMask inputs _ => inputs
  | OpBinaryMask inputs _ => inputs
  | OpSmoothMix inputs _ => inputs
  | OpWell inputs => inputs
  | OpTent inputs => inputs

end Operation

section Eval

variable {F : Type} [Zero F] [One F] [NatCast F] [Add F] [Sub F] [Mul F] [Div F] [LT F]
  [DecidableRel (fun a b : F => a < b)]

open Operation

/-- An index expression `v[i]` on a `[]float64`: `none` when `i` is out of range. -/
def index (v : List F) (i : Nat) : Option F :=
  v.get? i

/-- The function `length`: the loop adds `v * v` for each element to `sum`, starting
from 0, and the result is `math.Sqrt(sum)`. -/
def length (m : GoMath F) (v : List F) : F :=
  m.Sqrt (v.foldl (fun sum v => sum + v * v) 0)

/-- The function `smooth`. -/
def smooth (length a b : F) : F :=
  length * a + (1 - length) * b

/-- The function `well`. -/
def well (m : GoMath F) (x : F) : F :=
  m.Pow (1 - 2 / (1 + x * x)) 8

/-- The function `tent`. -/
def tent (m : GoMath F) (x : F) : F :=
  1 - 2 * m.Abs x

mutual
/-- The method `Eval` of each implementation.  `none` is a run-time panic (an index out
of range). -/
def Eval (m : GoMath F) : Operation F → F → F → Option (List F)
  | OpVarX, x, _ => some [x, x, x]
  | OpVarY, _, y => some [y, y, y]
  | OpConstant constant, _, _ => some [constant, constant, constant]
  | OpColorMix inputs, x, y => do
      let r ← index (← EvalAt m inputs 0 x y) 0
      let g ← index (← EvalAt m inputs 1 x y) 1
      let b ← index (← EvalAt m inputs 2 x y) 2
      some [r, g, b]
  | OpCircle centerX centerY, x, y =>
      let h := m.Hypot (x - centerX) (y - centerY)
      some [h, h, h]
  | OpInverse inputs, x, y => do
      let v ← EvalAt m inputs 0 x y
      some [1 - (← index v 0), 1 - (← index v 1), 1 - (← index v 2)]
  | OpSum inputs, x, y => do
      let a ← EvalAt m inputs 0 x y
      let b ← EvalAt m inputs 0 x y
      some [(← index a 0) + (← index b 0), (← index a 1) + (← index b 1), (← index a 2) + (← index b 2)]
  | OpProduct inputs, x, y => do
      let a ← EvalAt m inputs 0 x y
      let b ← EvalAt m inputs 1 x y
      some [(← index a 0) * (← index b 0), (← index a 1) * (← index b 1), (← index a 2) * (← index b 2)]
  | OpMod inputs, x, y => do
      let a ← EvalAt m inputs 0 x y
      let b ← EvalAt m inputs 1 x y
      some [m.Mod (← index a 0) (← index b 0), m.Mod (← index a 1) (← index b 1), m.Mod (← index a 2) (← index b 2)]
  | OpPerChannelMask inputs constant, x, y => do
      let a ← EvalAt m inputs 0 x y
      let b ← EvalAt m inputs 1 x y
      let c ← EvalAt m inputs 2 x y
      let aa ← if (← index a 0) > constant then index b 0 else index c 0
      let bb ← if (← index a 0) > constant then index b 1 else index c 1
      let cc ← if (← index a 0) > constant then index b 2 else index c 2
      some [aa, bb, cc]
  | OpBinaryMask inputs constant, x, y => do
      let v ← EvalAt m inputs 0 x y
      let a ← EvalAt m inputs 1 x y
      let b ← EvalAt m inputs 2 x y
      if length m v > constant then some a else some b
  | OpSmoothMix inputs _, x, y => do
      let v ← EvalAt m inputs 0 x y
      let a ← EvalAt m inputs 1 x y
      let b ← EvalAt m inputs 2 x y
      let l := length m v
      some [smooth l (← index a 0) (← index b 0), smooth l (← index a 1) (← index b 1),
        smooth l (← index a 2) (← index b 2)]
  | OpWell inputs, x, y => do
      let v ← EvalAt m inputs 0 x y
      some [well m (← index v 0), well m (← index v 1), well m (← index v 2)]
  | OpTent inputs, x, y => do
      let v ← EvalAt m inputs 0 x y
      some [tent m (← index v 0), tent m (← index v 1), tent m (← index v 2)]
/-- The expression `o.inputs[i].Eval(x, y)`: `none` when `i` is not an index of the
slice. -/
def EvalAt (m : GoMath F) : List (Operation F) → Nat → F → F → Option (List F)
  | [], _, _, _ => none
  | o :: _, 0, x, y => Eval m o x y
  | _ :: os, i + 1, x, y => EvalAt m os i x y
end

mutual
/-- A tree is well formed when every node, recursively, has exactly `InputsCount()`
attached children. -/
def wellFormed : Operation F → Bool
  | OpVarX => true
  | OpVarY => true
  | OpConstant _ => true
  | OpColorMix inputs =>
      inputs.length == (OpColorMix inputs).InputsCount && allWellFormed inputs
  | OpCircle _ _ => true
  | OpInverse inputs =>
      inputs.length == (OpInverse inputs).InputsCount && allWellFormed inputs
  | OpSum inputs =>
      inputs.length == (OpSum inputs).InputsCount && allWellFormed inputs
  | OpProduct inputs =>
      inputs.length == (OpProduct inputs).InputsCount && allWellFormed inputs
  | OpMod inputs =>
      inputs.length == (OpMod inputs).InputsCount && allWellFormed inputs
  | OpPerChannelMask inputs c =>
      inputs.length == (OpPerChannelMask inputs c).InputsCount && allWellFormed inputs
  | OpBinaryMask inputs c =>
      inputs.length == (OpBinaryMask inputs c).InputsCount && allWellFormed inputs
  | OpSmoothMix inputs c =>
      inputs.length == (OpSmoothMix inputs c).InputsCount && allWellFormed inputs
  | OpWell inputs =>
      inputs.length == (OpWell inputs).InputsCount && allWellFormed inputs
  | OpTent inputs =>
      inputs.length == (OpTent inputs).InputsCount && allWellFormed inputs
/-- Every node of the list is the root of a well-formed tree. -/
def allWellFormed : List (Operation F) → Bool
  | [] => true
  | o :: os => wellFormed o && allWellFormed os
end

end Eval

section Factory

variable {G F : Type}

open Operation

/-- The two methods of `*rand.Rand` called by the program, on a generator state `G`:
each returns the value drawn and the state after the draw.  (`Intn(n)` panics for
`n <= 0`; the program calls it with 9 and with 3 only.) -/
structure Rand (G F : Type) where
  /-- `Intn(n)` -/
  Intn : G → Int → Int × G
  /-- `Float64()` -/
  Float64 : G → F × G

/-- The documented contract of `Intn`: for `n > 0` the value is in `[0, n)`. -/
def IntnInRange (R : Rand G F) : Prop :=
  ∀ (g : G) (n : Int), 0 < n → 0 ≤ (R.Intn g n).1 ∧ (R.Intn g n).1 < n

/-- The ways `pickOperation` can fail to return. -/
inductive Failure where
  /-- run-time panic: index out of range -/
  | indexOutOfRange : Failure
  /-- the `log.Fatalf` call of the `default` case, with its message -/
  | fatal (msg : String) : Failure
  deriving DecidableEq, Repr

/-- The local `opsNoLeaves` of `pickOperation`. -/
def opsNoLeaves : List String := ["x", "y", "const", "circle"]

/-- The local `opsWithLeaves` of `pickOperation`. -/
def opsWithLeaves : List String :=
  ["colormix", "inverse", "sum", "product", "mod", "perchanmask", "binarymask",
    "smoothmix", "well", "tent"]

/-- An index expression `s[i]` on a `[]string` with an `int` index. -/
def stringAt (s : List String) (i : Int) : Except Failure String :=
  if i < 0 then .error .indexOutOfRange
  else match s.get? i.toNat with
    | some v => .ok v
    | none => .error .indexOutOfRange

/-- The function `pickOperation`.  It returns the node and the generator state after
the draws. -/
def pickOperation (R : Rand G F) (prng : G) (depth : Int) :
    Except Failure (Operation F × G) := do
  let (opID, prng) ←
    if depth > 1 then do
      let (i, prng) := R.Intn prng ((opsWithLeaves.length : Int) - 1)
      pure (← stringAt opsWithLeaves i, prng)
    else do
      let (i, prng) := R.Intn prng ((opsNoLeaves.length : Int) - 1)
      pure (← stringAt opsNoLeaves i, prng)
  if opID = "x" then
    return (OpVarX, prng)
  else if opID = "y" then
    return (OpVarY, prng)
  else if opID = "const" then
    let (c, prng) := R.Float64 prng
    return (OpConstant c, prng)
  else if opID = "circle" then
    let (cx, prng) := R.Float64 prng
    let (cy, prng) := R.Float64 prng
    return (OpCircle cx cy, prng)
  else if opID = "colormix" then
    return (OpColorMix [], prng)
  else if opID = "inverse" then
    return (OpInverse [], prng)
  else if opID = "sum" then
    return (OpSum [], prng)
  else if opID = "product" then
    return (OpProduct [], prng)
  else if opID = "mod" then
    return (OpMod [], prng)
  else if opID = "perchanmask" then
    let (c, prng) := R.Float64 prng
    return (OpPerChannelMask [] c, prng)
  else if opID = "binarymask" then
    let (c, prng) := R.Float64 prng
    return (OpBinaryMask [] c, prng)
  else if opID = "smoothmix" then
    let (c, prng) := R.Float64 prng
    return (OpSmoothMix [] c, prng)
  else if opID = "well" then
    return (OpWell [], prng)
  else if opID = "tent" then
    return (OpTent [], prng)
  else
    throw (.fatal ("operation id " ++ opID ++ " is not valid"))

/-- The identifier of the `switch` case of `pickOperation` that constructs the
implementation. -/
def Operation.opID : Operation F → String
  | .OpVarX => "x"
  | .OpVarY => "y"
  | .OpConstant _ => "const"
  | .OpCircle _ _ => "circle"
  | .OpColorMix _ => "colormix"
  | .OpInverse _ => "inverse"
  | .OpSum _ => "sum"
  | .OpProduct _ => "product"
  | .OpMod _ => "mod"
  | .OpPerChannelMask _ _ => "perchanmask"
  | .OpBinaryMask _ _ => "binarymask"
  | .OpSmoothMix _ _ => "smoothmix"
  | .OpWell _ => "well"
  | .OpTent _ => "tent"

end Factory

section Measures

variable {F : Type}

open Operation

mutual
/-- The number of nodes on the longest path from the node down to a leaf: the maximum
depth of the tree under the node, a node without children counting 1. -/
def treeDepth : Operation F → Nat
  | OpVarX => 1
  | OpVarY => 1
  | OpConstant _ => 1
  | OpColorMix inputs => 1 + maxTreeDepth inputs
  | OpCircle _ _ => 1
  | OpInverse inputs => 1 + maxTreeDepth inputs
  | OpSum inputs => 1 + maxTreeDepth inputs
  | OpProduct inputs => 1 + maxTreeDepth inputs
  | OpMod inputs => 1 + maxTreeDepth inputs
  | OpPerChannelMask inputs _ => 1 + maxTreeDepth inputs
  | OpBinaryMask inputs _ => 1 + maxTreeDepth inputs
  | OpSmoothMix inputs _ => 1 + maxTreeDepth inputs
  | OpWell inputs => 1 + maxTreeDepth inputs
  | OpTent inputs => 1 + maxTreeDepth inputs
/-- The largest `treeDepth` among the nodes of a list, 0 for the empty list. -/
def maxTreeDepth : List (Operation F) → Nat
  | [] => 0
  | o :: os => max (treeDepth o) (maxTreeDepth os)
end

/-- Truncation of a number toward zero. -/
def trunc [LinearOrderedField F] [FloorRing F] (q : F) : F :=
  if 0 ≤ q then (⌊q⌋ : F) else (⌈q⌉ : F)

/-- Modelled from the spec: `math.Mod`, a function of Go's standard library that is not
part of the repository, is the floating-point remainder with truncated-division
semantics, `a - b * trunc(a / b)`. -/
def truncMod [LinearOrderedField F] [FloorRing F] (a b : F) : F :=
  a - b * trunc (a / b)

end Measures

section Builder

variable {G F : Type}

/-- Modelled from the spec: the loop of the tree builder over the required children, which
is not in the source file: `n` calls of `b`, one after the other on the generator, and
the list of the nodes they return. -/
def buildChildren (b : G → Except Failure (Operation F × G)) :
    Nat → G → Except Failure (List (Operation F) × G)
  | 0, prng => .ok ([], prng)
  | n + 1, prng =>
    match b prng with
    | .error e => .error e
    | .ok (c, prng) =>
      match buildChildren b n prng with
      | .error e => .error e
      | .ok (cs, prng) => .ok (c :: cs, prng)

/-- Modelled from the spec: the tree builder `build(rng, depth)`, the caller of
`pickOperation`, which is not in the source file.  For `depth > 1` it instantiates the
selected composite variant, calls `build(rng, depth - 1)` once per required child
(`InputsCount()` times) and attaches the children; for `depth <= 1` it instantiates the
selected leaf variant, which requires no recursive call. -/
def build (R : Rand G F) (prng : G) (depth : Int) : Except Failure (Operation F × G) :=
  if _h : depth > 1 then
    match pickOperation R prng depth with
    | .error e => .error e
    | .ok (op, prng) =>
      match buildChildren (fun g => build R g (depth - 1)) op.InputsCount prng with
      | .error e => .error e
      | .ok (children, prng) => .ok (op.SetInputs children, prng)
  else pickOperation R prng depth
termination_by depth.toNat
decreasing_by omega

end Builder

/-- A `float64` value with the special values made explicit: `num q` is the finite number
`q`, `posInf` and `negInf` are the two infinities and `nan` is NaN.  The arithmetic of
finite numbers is exact: rounding, overflow and the sign of zero are left out (zero
stands for `+0`). -/
inductive FloatVal where
  | num (q : ℚ) : FloatVal
  | posInf : FloatVal
  | negInf : FloatVal
  | nan : FloatVal
  deriving DecidableEq

namespace FloatVal

/-- The infinity of the sign of `s`, and NaN when `s` is zero. -/
def signed (s : ℚ) : FloatVal :=
  if s = 0 then nan else if 0 < s then posInf else negInf

/-- Negation. -/
def neg : FloatVal → FloatVal
  | num a => num (-a)
  | posInf => negInf
  | negInf => posInf
  | nan => nan

/-- Addition: NaN when an operand is NaN and for the sum of the two opposite infinities. -/
def add : FloatVal → FloatVal → FloatVal
  | nan, _ => nan
  | _, nan => nan
  | num a, num b => num (a + b)
  | posInf, negInf => nan
  | negInf, posInf => nan
  | posInf, _ => posInf
  | _, posInf => posInf
  | negInf, _ => negInf
  | _, negInf => negInf

/-- Subtraction: the sum with the negated second operand. -/
def sub (a b : FloatVal) : FloatVal :=
  add a (neg b)

/-- Multiplication: NaN when an operand is NaN and for the product of zero and an
infinity. -/
def mul : FloatVal → FloatVal → FloatVal
  | nan, _ => nan
  | _, nan => nan
  | num a, num b => num (a * b)
  | posInf, num b => signed b
  | negInf, num b => signed (-b)
  | num a, posInf => signed a
  | num a, negInf => signed (-a)
  | posInf, posInf => posInf
  | negInf, negInf => posInf
  | posInf, negInf => negInf
  | negInf, posInf => negInf

/-- Division: NaN when an operand is NaN, for zero by zero and for an infinity by an
infinity; a non-zero number by zero is an infinity, a number by an infinity is zero. -/
def div : FloatVal → FloatVal → FloatVal
  | nan, _ => nan
  | _, nan => nan
  | num a, num b => if b = 0 then signed a else num (a / b)
  | num _, posInf => num 0
  | num _, negInf => num 0
  | posInf, num b => if 0 ≤ b then posInf else negInf
  | negInf, num b => if 0 ≤ b then negInf else posInf
  | posInf, posInf => nan
  | posInf, negInf => nan
  | negInf, posInf => nan
  | negInf, negInf => nan

/-- The comparison `<` as a Boolean: false when an operand is NaN. -/
def ltb : FloatVal → FloatVal → Bool
  | num a, num b => decide (a < b)
  | negInf, num _ => true
  | negInf, posInf => true
  | num _, posInf => true
  | _, _ => false

/-- The comparison `<=` as a Boolean: false when an operand is NaN. -/
def leb : FloatVal → FloatVal → Bool
  | nan, _ => false
  | _, nan => false
  | num a, num b => decide (a ≤ b)
  | negInf, _ => true
  | _, posInf => true
  | _, _ => false

instance : Zero FloatVal := ⟨num 0⟩

instance : One FloatVal := ⟨num 1⟩

instance : NatCast FloatVal := ⟨fun n => num n⟩

instance : Add FloatVal := ⟨add⟩

instance : Sub FloatVal := ⟨sub⟩

instance : Mul FloatVal := ⟨mul⟩

instance : Div FloatVal := ⟨div⟩

instance : LT FloatVal := ⟨fun a b => ltb a b = true⟩

instance : LE FloatVal := ⟨fun a b => leb a b = true⟩

instance : DecidableRel (fun a b : FloatVal => a < b) :=
  fun a b => inferInstanceAs (Decidable (ltb a b = true))

instance : DecidableRel (fun a b : FloatVal => a ≤ b) :=
  fun a b => inferInstanceAs (Decidable (leb a b = true))

end FloatVal

section Examples

/-- An executable interpretation of the `math` functions on the rationals: `Abs` is
exact, `Mod` is the truncated-division remainder (the dividend when the divisor is 0),
`Pow` is exact for an integer exponent, and `Sqrt` and `Hypot` are exact where the
result is rational (rounded down otherwise). -/
def ratMath : GoMath ℚ where
  Sqrt := Rat.sqrt
  Hypot p q := Rat.sqrt (p * p + q * q)
  Mod a b := a - b * (if 0 ≤ a / b then (⌊a / b⌋ : ℚ) else (⌈a / b⌉ : ℚ))
  Pow x y := x ^ ⌊y⌋
  Abs x := |x|

/-- An executable generator on a counter: `Intn(n)` is the counter modulo `n`,
`Float64()` is the tenths digit of the counter, and each draw adds one to it. -/
def counterRand : Rand ℕ ℚ where
  Intn g n := ((g : Int) % n, g + 1)
  Float64 g := (((g % 10 : ℕ) : ℚ) / 10, g + 1)

open FloatVal

/-- An executable interpretation of the `math` functions on `FloatVal`, with the special
cases of the Go documentation: `Mod(±Inf, y)`, `Mod(NaN, y)`, `Mod(x, 0)` and
`Mod(x, NaN)` are NaN and `Mod(x, ±Inf)` is `x`; `Sqrt` of a negative number or of `-Inf`
is NaN and `Sqrt(+Inf)` is `+Inf`; `Hypot` is `+Inf` when an argument is an infinity, and
otherwise NaN when an argument is NaN; `Pow(x, 0)` and `Pow(1, y)` are 1, and otherwise
`Pow` is NaN when an argument is NaN; `Abs(±Inf)` is `+Inf`.  On finite numbers `Mod` is
the truncated-division remainder, `Abs` is exact, `Pow` is exact for an integer exponent
(a non-integer exponent is rounded down), and `Sqrt` and `Hypot` are exact where the
result is rational (rounded down otherwise). -/
def nanMath : GoMath FloatVal where
  Sqrt
    | num a => if a < 0 then nan else num (Rat.sqrt a)
    | posInf => posInf
    | negInf => nan
    | nan => nan
  Hypot
    | posInf, _ => posInf
    | negInf, _ => posInf
    | _, posInf => posInf
    | _, negInf => posInf
    | nan, _ => nan
    | _, nan => nan
    | num p, num q => num (Rat.sqrt (p * p + q * q))
  Mod
    | nan, _ => nan
    | _, nan => nan
    | posInf, _ => nan
    | negInf, _ => nan
    | num a, num b => if b = 0 then nan else num (truncMod a b)
    | num a, posInf => num a
    | num a, negInf => num a
  Pow x y :=
    if y = num 0 then num 1
    else if x = num 1 then num 1
    else match x, y with
      | nan, _ => nan
      | _, nan => nan
      | num u, num e => if u = 0 ∧ e < 0 then posInf else num (u ^ ⌊e⌋)
      | num u, posInf => if 1 < |u| then posInf else if |u| < 1 then num 0 else num 1
      | num u, negInf => if 1 < |u| then num 0 else if |u| < 1 then posInf else num 1
      | posInf, num e => if 0 < e then posInf else num 0
      | posInf, posInf => posInf
      | posInf, negInf => num 0
      | negInf, num e =>
        if 0 < e then (if ⌊e⌋ % 2 = 1 ∧ (⌊e⌋ : ℚ) = e then negInf else posInf) else num 0
      | negInf, posInf => posInf
      | negInf, negInf => num 0
  Abs
    | num a => num |a|
    | posInf => posInf
    | negInf => posInf
    | nan => nan

end Examples

/-! ## Theorems -/

section EvalTheorems

variable {F : Type} [LinearOrderedField F]

open Operation

theorem EvalAt_zero (m : GoMath F) (o : Operation F) (os : List (Operation F)) (x y : F) :
    EvalAt m (o :: os) 0 x y = Eval m o x y := by
  simp [EvalAt]

theorem EvalAt_succ (m : GoMath F) (o : Operation F) (os : List (Operation F)) (i : Nat)
    (x y : F) : EvalAt m (o :: os) (i + 1) x y = EvalAt m os i x y := by
  simp [EvalAt]

theorem EvalAt_nil (m : GoMath F) (i : Nat) (x y : F) :
    EvalAt m ([] : List (Operation F)) i x y = none := by
  simp [EvalAt]

/-- The value `length` computes on a 3-element slice. -/
theorem length_three (m : GoMath F) (r g b : F) :
    length m [r, g, b] = m.Sqrt (r * r + g * g + b * b) := by
  simp [length]

/-- C1: a Sum node with children A and B evaluates to the per-channel sum of A's output
with itself, whatever the second child is. -/
theorem OpSum_Eval_first_child_twice (m : GoMath F) (A B : Operation F) (x y r g b : F)
    (hA : Eval m A x y = some [r, g, b]) :
    Eval m (OpSum [A, B]) x y = some [r + r, g + g, b + b] ∧
      ∀ B' : Operation F, Eval m (OpSum [A, B']) x y = Eval m (OpSum [A, B]) x y := by
  constructor
  · simp [Eval, EvalAt, hA, index]
  · intro B'
    simp [Eval, EvalAt]

theorem OpSum_Eval_first_child_twice_witness :
    Eval ratMath (OpVarX : Operation ℚ) 1 2 = some [1, 1, 1] ∧
      (Eval ratMath (OpSum [OpVarX, OpVarY]) 1 2 = some [1 + 1, 1 + 1, 1 + 1] ∧
        ∀ B' : Operation ℚ,
          Eval ratMath (OpSum [OpVarX, B']) 1 2 = Eval ratMath (OpSum [OpVarX, OpVarY]) 1 2) :=
  ⟨by simp [Eval], OpSum_Eval_first_child_twice ratMath OpVarX OpVarY 1 2 1 1 1 (by simp [Eval])⟩

/-- C6: a ColorMix node with children A, B, C evaluates to (A's R channel, B's G channel,
C's B channel); children A', B', C' that agree with A, B, C on these three channels and
differ on the others give the same result. -/
theorem OpColorMix_Eval_one_channel_per_child (m : GoMath F) (A B C A' B' C' : Operation F)
    (x y ra ga ba rb gb bb rc gc bc ga' ba' rb' bb' rc' gc' : F)
    (hA : Eval m A x y = some [ra, ga, ba]) (hB : Eval m B x y = some [rb, gb, bb])
    (hC : Eval m C x y = some [rc, gc, bc])
    (hA' : Eval m A' x y = some [ra, ga', ba']) (hB' : Eval m B' x y = some [rb', gb, bb'])
    (hC' : Eval m C' x y = some [rc', gc', bc]) :
    Eval m (OpColorMix [A, B, C]) x y = some [ra, gb, bc] ∧
      Eval m (OpColorMix [A', B', C']) x y = Eval m (OpColorMix [A, B, C]) x y := by
  simp [Eval, EvalAt, hA, hB, hC, hA', hB', hC', index]

theorem OpColorMix_Eval_one_channel_per_child_witness :
    Eval ratMath (OpVarX : Operation ℚ) 1 2 = some [1, 1, 1] ∧
      Eval ratMath (OpVarY : Operation ℚ) 1 2 = some [2, 2, 2] ∧
      Eval ratMath (OpConstant 3 : Operation ℚ) 1 2 = some [3, 3, 3] ∧
      Eval ratMath (OpColorMix [OpVarX, OpConstant 4, OpConstant 5]) 1 2 = some [1, 4, 5] ∧
      Eval ratMath (OpColorMix [OpConstant 6, OpVarY, OpConstant 7]) 1 2 = some [6, 2, 7] ∧
      Eval ratMath (OpColorMix [OpConstant 8, OpConstant 9, OpConstant 3]) 1 2
        = some [8, 9, 3] ∧
      (Eval ratMath (OpColorMix [OpVarX, OpVarY, OpConstant 3]) 1 2 = some [1, 2, 3] ∧
        Eval ratMath (OpColorMix [OpColorMix [OpVarX, OpConstant 4, OpConstant 5],
            OpColorMix [OpConstant 6, OpVarY, OpConstant 7],
            OpColorMix [OpConstant 8, OpConstant 9, OpConstant 3]]) 1 2
          = Eval ratMath (OpColorMix [OpVarX, OpVarY, OpConstant 3]) 1 2) :=
  ⟨by simp [Eval], by simp [Eval], by simp [Eval], by simp [Eval, EvalAt, index],
    by simp [Eval, EvalAt, index], by simp [Eval, EvalAt, index],
    OpColorMix_Eval_one_channel_per_child ratMath OpVarX OpVarY (OpConstant 3)
      (OpColorMix [OpVarX, OpConstant 4, OpConstant 5])
      (OpColorMix [OpConstant 6, OpVarY, OpConstant 7])
      (OpColorMix [OpConstant 8, OpConstant 9, OpConstant 3])
      1 2 1 1 1 2 2 2 3 3 3 4 5 6 7 8 9
      (by simp [Eval]) (by simp [Eval]) (by simp [Eval]) (by simp [Eval, EvalAt, index])
      (by simp [Eval, EvalAt, index]) (by simp [Eval, EvalAt, index])⟩

/-- C8: a PerChannelMask node with threshold t and children C0, C1, C2 evaluates to the
whole output of C1 when C0's R channel is strictly greater than t and to the whole output
of C2 otherwise; a control child C0' with the same R channel and other G and B channels
gives the same result. -/
theorem OpPerChannelMask_Eval_whole_output (m : GoMath F) (C0 C0' C1 C2 : Operation F)
    (t x y r0 g0 b0 g0' b0' r1 g1 b1 r2 g2 b2 : F)
    (h0 : Eval m C0 x y = some [r0, g0, b0]) (h0' : Eval m C0' x y = some [r0, g0', b0'])
    (h1 : Eval m C1 x y = some [r1, g1, b1]) (h2 : Eval m C2 x y = some [r2, g2, b2]) :
    (r0 > t → Eval m (OpPerChannelMask [C0, C1, C2] t) x y = some [r1, g1, b1]) ∧
      (¬ r0 > t → Eval m (OpPerChannelMask [C0, C1, C2] t) x y = some [r2, g2, b2]) ∧
      (Eval m (OpPerChannelMask [C0, C1, C2] t) x y = Eval m C1 x y ∨
        Eval m (OpPerChannelMask [C0, C1, C2] t) x y = Eval m C2 x y) ∧
      Eval m (OpPerChannelMask [C0', C1, C2] t) x y
        = Eval m (OpPerChannelMask [C0, C1, C2] t) x y := by
  by_cases h : r0 > t <;> simp [Eval, EvalAt, h0, h0', h1, h2, index, h]

theorem OpPerChannelMask_Eval_whole_output_witness :
    Eval ratMath (OpVarX : Operation ℚ) 1 2 = some [1, 1, 1] ∧
      Eval ratMath (OpColorMix [OpVarX, OpConstant 4, OpConstant 5]) 1 2 = some [1, 4, 5] ∧
      Eval ratMath (OpColorMix [OpConstant 6, OpVarY, OpConstant 7]) 1 2 = some [6, 2, 7] ∧
      Eval ratMath (OpColorMix [OpConstant 8, OpConstant 9, OpConstant 3]) 1 2
        = some [8, 9, 3] ∧
      (((1 : ℚ) > 1 / 2 →
          Eval ratMath (OpPerChannelMask [OpVarX,
            OpColorMix [OpConstant 6, OpVarY, OpConstant 7],
            OpColorMix [OpConstant 8, OpConstant 9, OpConstant 3]] (1 / 2)) 1 2
            = some [6, 2, 7]) ∧
        (¬ (1 : ℚ) > 1 / 2 →
          Eval ratMath (OpPerChannelMask [OpVarX,
            OpColorMix [OpConstant 6, OpVarY, OpConstant 7],
            OpColorMix [OpConstant 8, OpConstant 9, OpConstant 3]] (1 / 2)) 1 2
            = some [8, 9, 3]) ∧
        (Eval ratMath (OpPerChannelMask [OpVarX,
            OpColorMix [OpConstant 6, OpVarY, OpConstant 7],
            OpColorMix [OpConstant 8, OpConstant 9, OpConstant 3]] (1 / 2)) 1 2
            = Eval ratMath (OpColorMix [OpConstant 6, OpVarY, OpConstant 7]) 1 2 ∨
          Eval ratMath (OpPerChannelMask [OpVarX,
            OpColorMix [OpConstant 6, OpVarY, OpConstant 7],
            OpColorMix [OpConstant 8, OpConstant 9, OpConstant 3]] (1 / 2)) 1 2
            = Eval ratMath (OpColorMix [OpConstant 8, OpConstant 9, OpConstant 3]) 1 2) ∧
        Eval ratMath (OpPerChannelMask [OpColorMix [OpVarX, OpConstant 4, OpConstant 5],
            OpColorMix [OpConstant 6, OpVarY, OpConstant 7],
            OpColorMix [OpConstant 8, OpConstant 9, OpConstant 3]] (1 / 2)) 1 2
          = Eval ratMath (OpPerChannelMask [OpVarX,
            OpColorMix [OpConstant 6, OpVarY, OpConstant 7],
            OpColorMix [OpConstant 8, OpConstant 9, OpConstant 3]] (1 / 2)) 1 2) :=
  ⟨by simp [Eval], by simp [Eval, EvalAt, index], by simp [Eval, EvalAt, index],
    by simp [Eval, EvalAt, index],
    OpPerChannelMask_Eval_whole_output ratMath OpVarX
      (OpColorMix [OpVarX, OpConstant 4, OpConstant 5])
      (OpColorMix [OpConstant 6, OpVarY, OpConstant 7])
      (OpColorMix [OpConstant 8, OpConstant 9, OpConstant 3])
      (1 / 2) 1 2 1 1 1 4 5 6 2 7 8 9 3
      (by simp [Eval]) (by simp [Eval, EvalAt, index]) (by simp [Eval, EvalAt, index])
      (by simp [Eval, EvalAt, index])⟩

/-- C7: a BinaryMask node with threshold t and children C0, C1, C2 evaluates to the
entire output of C1 when sqrt(r^2 + g^2 + b^2) of C0's output is strictly greater than t,
and to the entire output of C2 otherwise, also when the norm equals t; and (for a square
root with sqrt 0 = 0 and sqrt 1 = 1) there are a BinaryMask tree and two points such that
it returns the output of its child 1 at the first and of its child 2 at the second, the
two outputs being different. -/
theorem OpBinaryMask_Eval_hard_switch (m : GoMath F) (C0 C1 C2 : Operation F)
    (t x y r g b : F) (a c : List F)
    (h0 : Eval m C0 x y = some [r, g, b]) (h1 : Eval m C1 x y = some a)
    (h2 : Eval m C2 x y = some c) :
    (m.Sqrt (r * r + g * g + b * b) > t →
        Eval m (OpBinaryMask [C0, C1, C2] t) x y = some a) ∧
      (¬ m.Sqrt (r * r + g * g + b * b) > t →
        Eval m (OpBinaryMask [C0, C1, C2] t) x y = some c) ∧
      (m.Sqrt (r * r + g * g + b * b) = t →
        Eval m (OpBinaryMask [C0, C1, C2] t) x y = some c) ∧
      (m.Sqrt 0 = 0 → m.Sqrt 1 = 1 →
        ∃ (D0 D1 D2 : Operation F) (t' x1 y1 x2 y2 : F),
          Eval m (OpBinaryMask [D0, D1, D2] t') x1 y1 = Eval m D1 x1 y1 ∧
          Eval m (OpBinaryMask [D0, D1, D2] t') x2 y2 = Eval m D2 x2 y2 ∧
          Eval m D1 x1 y1 ≠ Eval m D2 x1 y1 ∧ Eval m D1 x2 y2 ≠ Eval m D2 x2 y2) := by
  refine ⟨?_, ?_, ?_, ?_⟩
  · intro h
    simp [Eval, EvalAt, h0, h1, h2, length_three, h]
  · intro h
    simp [Eval, EvalAt, h0, h1, h2, length_three, h]
  · intro h
    simp [Eval, EvalAt, h0, h1, h2, length_three, h]
  · intro hs0 hs1
    refine ⟨OpColorMix [OpVarX, OpConstant 0, OpConstant 0], OpConstant 1, OpConstant 0,
      1 / 2, 1, 0, 0, 0, ?_, ?_, ?_, ?_⟩
    · have h2 : (2 : F)⁻¹ < 1 := by norm_num
      simp [Eval, EvalAt, index, length_three, hs1, h2]
    · simp [Eval, EvalAt, index, length_three, hs0]
    · simp [Eval]
    · simp [Eval]

theorem OpBinaryMask_Eval_hard_switch_witness :
    Eval ratMath (OpColorMix [OpVarX, OpConstant 0, OpConstant 0]) 1 0 = some [1, 0, 0] ∧
      Eval ratMath (OpVarX : Operation ℚ) 1 0 = some [1, 1, 1] ∧
      Eval ratMath (OpVarY : Operation ℚ) 1 0 = some [0, 0, 0] ∧
      ratMath.Sqrt (1 * 1 + 0 * 0 + 0 * 0) > 1 / 2 ∧
      ratMath.Sqrt 0 = 0 ∧ ratMath.Sqrt 1 = 1 ∧
      Eval ratMath (OpBinaryMask [OpColorMix [OpVarX, OpConstant 0, OpConstant 0],
        OpVarX, OpVarY] (1 / 2)) 1 0 = some [1, 1, 1] ∧
      ∃ (D0 D1 D2 : Operation ℚ) (t' x1 y1 x2 y2 : ℚ),
        Eval ratMath (OpBinaryMask [D0, D1, D2] t') x1 y1 = Eval ratMath D1 x1 y1 ∧
        Eval ratMath (OpBinaryMask [D0, D1, D2] t') x2 y2 = Eval ratMath D2 x2 y2 ∧
        Eval ratMath D1 x1 y1 ≠ Eval ratMath D2 x1 y1 ∧
        Eval ratMath D1 x2 y2 ≠ Eval ratMath D2 x2 y2 :=
  have hS : ratMath.Sqrt (1 * 1 + 0 * 0 + 0 * 0) > 1 / 2 := by
    have h : ((1 : ℚ) * 1 + 0 * 0 + 0 * 0) = 1 * 1 := by norm_num
    show Rat.sqrt (1 * 1 + 0 * 0 + 0 * 0) > 1 / 2
    rw [h, Rat.sqrt_eq]
    norm_num
  have hs0 : ratMath.Sqrt 0 = 0 := by
    have h : (0 : ℚ) = 0 * 0 := by norm_num
    show Rat.sqrt 0 = 0
    rw [h, Rat.sqrt_eq]
    norm_num
  have hs1 : ratMath.Sqrt 1 = 1 := by
    have h : (1 : ℚ) = 1 * 1 := by norm_num
    show Rat.sqrt 1 = 1
    rw [h, Rat.sqrt_eq]
    norm_num
  have H := OpBinaryMask_Eval_hard_switch ratMath
    (OpColorMix [OpVarX, OpConstant 0, OpConstant 0]) OpVarX OpVarY (1 / 2) 1 0 1 0 0
    [1, 1, 1] [0, 0, 0] (by simp [Eval, EvalAt, index]) (by simp [Eval]) (by simp [Eval])
  ⟨by simp [Eval, EvalAt, index], by simp [Eval], by simp [Eval], hS, hs0, hs1, H.1 hS,
    H.2.2.2 hs0 hs1⟩

/-- C9: a SmoothMix node with children C0, C1, C2 evaluates, with L = sqrt(r^2 + g^2 + b^2)
of C0's output, to L * C1[i] + (1 - L) * C2[i] in each channel i. -/
theorem OpSmoothMix_Eval_blend (m : GoMath F) (C0 C1 C2 : Operation F)
    (t x y r0 g0 b0 r1 g1 b1 r2 g2 b2 L : F)
    (h0 : Eval m C0 x y = some [r0, g0, b0]) (h1 : Eval m C1 x y = some [r1, g1, b1])
    (h2 : Eval m C2 x y = some [r2, g2, b2])
    (hL : L = m.Sqrt (r0 * r0 + g0 * g0 + b0 * b0)) :
    Eval m (OpSmoothMix [C0, C1, C2] t) x y
      = some [L * r1 + (1 - L) * r2, L * g1 + (1 - L) * g2, L * b1 + (1 - L) * b2] := by
  subst hL
  simp only [Eval, EvalAt, h0, h1, h2, index, length_three, smooth, Option.bind_eq_bind,
    Option.some_bind, List.get?_cons_zero, List.get?_cons_succ]

theorem OpSmoothMix_Eval_blend_witness :
    Eval ratMath (OpColorMix [OpVarX, OpConstant 4, OpVarY]) 3 0 = some [3, 4, 0] ∧
      Eval ratMath (OpConstant 1 : Operation ℚ) 3 0 = some [1, 1, 1] ∧
      Eval ratMath (OpVarX : Operation ℚ) 3 0 = some [3, 3, 3] ∧
      (5 : ℚ) = ratMath.Sqrt (3 * 3 + 4 * 4 + 0 * 0) ∧
      Eval ratMath (OpSmoothMix [OpColorMix [OpVarX, OpConstant 4, OpVarY], OpConstant 1,
        OpVarX] (1 / 2)) 3 0
        = some [5 * 1 + (1 - 5) * 3, 5 * 1 + (1 - 5) * 3, 5 * 1 + (1 - 5) * 3] :=
  have hL : (5 : ℚ) = ratMath.Sqrt (3 * 3 + 4 * 4 + 0 * 0) := by
    have h : ((3 : ℚ) * 3 + 4 * 4 + 0 * 0) = 5 * 5 := by norm_num
    show (5 : ℚ) = Rat.sqrt (3 * 3 + 4 * 4 + 0 * 0)
    rw [h, Rat.sqrt_eq]
    norm_num
  ⟨by simp [Eval, EvalAt, index], by simp [Eval], by simp [Eval], hL,
    OpSmoothMix_Eval_blend ratMath (OpColorMix [OpVarX, OpConstant 4, OpVarY]) (OpConstant 1)
      OpVarX (1 / 2) 3 0 3 4 0 1 1 1 3 3 3 5
      (by simp [Eval, EvalAt, index]) (by simp [Eval]) (by simp [Eval]) hL⟩

/-- The constant of a SmoothMix node is not read by its evaluation. -/
theorem Eval_OpSmoothMix_constant (m : GoMath F) (inputs : List (Operation F))
    (t1 t2 x y : F) :
    Eval m (OpSmoothMix inputs t1) x y = Eval m (OpSmoothMix inputs t2) x y := by
  simp [Eval]

/-- C10, as stated, fails: no two values of the parameter t of a SmoothMix node give
different results, for any children and any point. -/
theorem OpSmoothMix_Eval_constant_no_effect :
    ¬ ∃ (m : GoMath ℚ) (inputs : List (Operation ℚ)) (x y t1 t2 : ℚ),
      t1 ≠ t2 ∧ Eval m (OpSmoothMix inputs t1) x y ≠ Eval m (OpSmoothMix inputs t2) x y := by
  rintro ⟨m, inputs, x, y, t1, t2, -, h⟩
  exact h (Eval_OpSmoothMix_constant m inputs t1 t2 x y)

/-- C10, amended: the parameter t of a SmoothMix node is stored in the node and not used
in evaluation; the result is the same for every two values of t, and the blend weight is
the norm `length` of the output of child 0. -/
theorem OpSmoothMix_Eval_ignores_constant (m : GoMath F) (C0 C1 C2 : Operation F)
    (t1 t2 x y : F) :
    Eval m (OpSmoothMix [C0, C1, C2] t1) x y = Eval m (OpSmoothMix [C0, C1, C2] t2) x y ∧
      ∀ v a b : List F, Eval m C0 x y = some v → Eval m C1 x y = some a →
        Eval m C2 x y = some b →
        Eval m (OpSmoothMix [C0, C1, C2] t1) x y = (do
          some [smooth (length m v) (← index a 0) (← index b 0),
            smooth (length m v) (← index a 1) (← index b 1),
            smooth (length m v) (← index a 2) (← index b 2)]) := by
  refine ⟨Eval_OpSmoothMix_constant m _ t1 t2 x y, ?_⟩
  intro v a b h0 h1 h2
  simp [Eval, EvalAt, h0, h1, h2]

mutual
/-- Evaluation of a well-formed tree returns three channel values. -/
theorem Eval_three_of_wellFormed (m : GoMath F) (x y : F) :
    ∀ op : Operation F, wellFormed op = true → ∃ r g b, Eval m op x y = some [r, g, b]
  | OpVarX, _ => ⟨x, x, x, by simp [Eval]⟩
  | OpVarY, _ => ⟨y, y, y, by simp [Eval]⟩
  | OpConstant c, _ => ⟨c, c, c, by simp [Eval]⟩
  | OpColorMix inputs, hw => by
      simp only [wellFormed, InputsCount, Bool.and_eq_true, beq_iff_eq] at hw
      obtain ⟨r0, g0, b0, h0⟩ :=
        EvalAt_three_of_allWellFormed m x y inputs 0 hw.2 (by omega)
      obtain ⟨r1, g1, b1, h1⟩ :=
        EvalAt_three_of_allWellFormed m x y inputs 1 hw.2 (by omega)
      obtain ⟨r2, g2, b2, h2⟩ :=
        EvalAt_three_of_allWellFormed m x y inputs 2 hw.2 (by omega)
      simp [Eval, h0, h1, h2, index]
  | OpCircle cx cy, _ =>
      ⟨m.Hypot (x - cx) (y - cy), m.Hypot (x - cx) (y - cy), m.Hypot (x - cx) (y - cy),
        by simp [Eval]⟩
  | OpInverse inputs, hw => by
      simp only [wellFormed, InputsCount, Bool.and_eq_true, beq_iff_eq] at hw
      obtain ⟨r0, g0, b0, h0⟩ :=
        EvalAt_three_of_allWellFormed m x y inputs 0 hw.2 (by omega)
      simp [Eval, h0, index]
  | OpSum inputs, hw => by
      simp only [wellFormed, InputsCount, Bool.and_eq_true, beq_iff_eq] at hw
      obtain ⟨r0, g0, b0, h0⟩ :=
        EvalAt_three_of_allWellFormed m x y inputs 0 hw.2 (by omega)
      simp [Eval, h0, index]
  | OpProduct inputs, hw => by
      simp only [wellFormed, InputsCount, Bool.and_eq_true, beq_iff_eq] at hw
      obtain ⟨r0, g0, b0, h0⟩ :=
        EvalAt_three_of_allWellFormed m x y inputs 0 hw.2 (by omega)
      obtain ⟨r1, g1, b1, h1⟩ :=
        EvalAt_three_of_allWellFormed m x y inputs 1 hw.2 (by omega)
      simp [Eval, h0, h1, index]
  | OpMod inputs, hw => by
      simp only [wellFormed, InputsCount, Bool.and_eq_true, beq_iff_eq] at hw
      obtain ⟨r0, g0, b0, h0⟩ :=
        EvalAt_three_of_allWellFormed m x y inputs 0 hw.2 (by omega)
      obtain ⟨r1, g1, b1, h1⟩ :=
        EvalAt_three_of_allWellFormed m x y inputs 1 hw.2 (by omega)
      simp [Eval, h0, h1, index]
  | OpPerChannelMask inputs c, hw => by
      simp only [wellFormed, InputsCount, Bool.and_eq_true, beq_iff_eq] at hw
      obtain ⟨r0, g0, b0, h0⟩ :=
        EvalAt_three_of_allWellFormed m x y inputs 0 hw.2 (by omega)
      obtain ⟨r1, g1, b1, h1⟩ :=
        EvalAt_three_of_allWellFormed m x y inputs 1 hw.2 (by omega)
      obtain ⟨r2, g2, b2, h2⟩ :=
        EvalAt_three_of_allWellFormed m x y inputs 2 hw.2 (by omega)
      by_cases h : c < r0 <;> simp [Eval, h0, h1, h2, index, h]
  | OpBinaryMask inputs c, hw => by
      simp only [wellFormed, InputsCount, Bool.and_eq_true, beq_iff_eq] at hw
      obtain ⟨r0, g0, b0, h0⟩ :=
        EvalAt_three_of_allWellFormed m x y inputs 0 hw.2 (by omega)
      obtain ⟨r1, g1, b1, h1⟩ :=
        EvalAt_three_of_allWellFormed m x y inputs 1 hw.2 (by omega)
      obtain ⟨r2, g2, b2, h2⟩ :=
        EvalAt_three_of_allWellFormed m x y inputs 2 hw.2 (by omega)
      by_cases h : c < length m [r0, g0, b0] <;> simp [Eval, h0, h1, h2, h]
  | OpSmoothMix inputs c, hw => by
      simp only [wellFormed, InputsCount, Bool.and_eq_true, beq_iff_eq] at hw
      obtain ⟨r0, g0, b0, h0⟩ :=
        EvalAt_three_of_allWellFormed m x y inputs 0 hw.2 (by omega)
      obtain ⟨r1, g1, b1, h1⟩ :=
        EvalAt_three_of_allWellFormed m x y inputs 1 hw.2 (by omega)
      obtain ⟨r2, g2, b2, h2⟩ :=
        EvalAt_three_of_allWellFormed m x y inputs 2 hw.2 (by omega)
      simp [Eval, h0, h1, h2, index]
  | OpWell inputs, hw => by
      simp only [wellFormed, InputsCount, Bool.and_eq_true, beq_iff_eq] at hw
      obtain ⟨r0, g0, b0, h0⟩ :=
        EvalAt_three_of_allWellFormed m x y inputs 0 hw.2 (by omega)
      simp [Eval, h0, index]
  | OpTent inputs, hw => by
      simp only [wellFormed, InputsCount, Bool.and_eq_true, beq_iff_eq] at hw
      obtain ⟨r0, g0, b0, h0⟩ :=
        EvalAt_three_of_allWellFormed m x y inputs 0 hw.2 (by omega)
      simp [Eval, h0, index]
/-- Evaluation of the child at an index of a list of well-formed trees returns three
channel values. -/
theorem EvalAt_three_of_allWellFormed (m : GoMath F) (x y : F) :
    ∀ (os : List (Operation F)) (i : Nat), allWellFormed os = true → i < os.length →
      ∃ r g b, EvalAt m os i x y = some [r, g, b]
  | [], _, _, hi => absurd hi (by simp)
  | o :: _, 0, hw, _ => by
      simp only [allWellFormed, Bool.and_eq_true] at hw
      simpa [EvalAt] using Eval_three_of_wellFormed m x y o hw.1
  | _ :: os, i + 1, hw, hi => by
      simp only [allWellFormed, Bool.and_eq_true] at hw
      simpa [EvalAt] using
        EvalAt_three_of_allWellFormed m x y os i hw.2 (by simpa using hi)
end

/-- C5: on a well-formed tree (every node, recursively, has exactly InputsCount()-many
attached children) and at every (x, y), Eval does not panic on an index and returns a
sequence of exactly 3 channel values. -/
theorem Eval_wellFormed_returns_three_channels (m : GoMath F) (op : Operation F) (x y : F)
    (hw : wellFormed op = true) :
    ∃ v : List F, Eval m op x y = some v ∧ v.length = 3 := by
  obtain ⟨r, g, b, h⟩ := Eval_three_of_wellFormed m x y op hw
  exact ⟨[r, g, b], h, rfl⟩

theorem Eval_wellFormed_returns_three_channels_witness :
    wellFormed (OpBinaryMask [OpColorMix [OpVarX, OpConstant 0, OpConstant 0],
        OpSum [OpVarX, OpVarY], OpInverse [OpVarY]] (1 / 2) : Operation ℚ) = true ∧
      ∃ v : List ℚ, Eval ratMath (OpBinaryMask [OpColorMix [OpVarX, OpConstant 0, OpConstant 0],
        OpSum [OpVarX, OpVarY], OpInverse [OpVarY]] (1 / 2)) 1 0 = some v ∧ v.length = 3 :=
  ⟨by simp [wellFormed, allWellFormed, InputsCount],
    Eval_wellFormed_returns_three_channels ratMath _ 1 0
      (by simp [wellFormed, allWellFormed, InputsCount])⟩

end EvalTheorems

section FactoryTheorems

variable {G F : Type}

open Operation

theorem opsWithLeaves_bound : ((opsWithLeaves.length : Int) - 1) = 9 := by decide

theorem opsNoLeaves_bound : ((opsNoLeaves.length : Int) - 1) = 3 := by decide

/-- With a generator that keeps the contract of `Intn`, `pickOperation` at a depth above 1
returns the node of the drawn entry of `opsWithLeaves`, without children. -/
theorem pickOperation_composite (R : Rand G F) (hR : IntnInRange R) (g : G) (depth : Int)
    (hd : depth > 1) :
    ∃ op g', pickOperation R g depth = .ok (op, g') ∧ op.inputs = [] ∧
      1 ≤ op.InputsCount ∧ op.opID ∈ opsWithLeaves.dropLast ∧
      stringAt opsWithLeaves (R.Intn g 9).1 = .ok op.opID := by
  obtain ⟨h0, h9⟩ := hR g 9 (by decide)
  unfold pickOperation
  rw [if_pos hd, opsWithLeaves_bound]
  generalize R.Intn g 9 = p at h0 h9
  obtain ⟨i, g1⟩ := p
  simp only at h0 h9
  interval_cases i
  all_goals simp [stringAt, opsWithLeaves, inputs, Operation.opID, InputsCount, bind,
    Except.bind, pure, Except.pure]

/-- With a generator that keeps the contract of `Intn`, `pickOperation` at a depth of at
most 1 returns the node of the drawn entry of `opsNoLeaves`. -/
theorem pickOperation_leaf (R : Rand G F) (hR : IntnInRange R) (g : G) (depth : Int)
    (hd : ¬ depth > 1) :
    ∃ op g', pickOperation R g depth = .ok (op, g') ∧ op.inputs = [] ∧
      op.InputsCount = 0 ∧ op.opID ∈ opsNoLeaves.dropLast ∧
      stringAt opsNoLeaves (R.Intn g 3).1 = .ok op.opID := by
  obtain ⟨h0, h3⟩ := hR g 3 (by decide)
  unfold pickOperation
  rw [if_neg hd, opsNoLeaves_bound]
  generalize R.Intn g 3 = p at h0 h3
  obtain ⟨i, g1⟩ := p
  simp only at h0 h3
  interval_cases i
  all_goals simp [stringAt, opsNoLeaves, inputs, Operation.opID, InputsCount, bind,
    Except.bind, pure, Except.pure]

/-- The counter generator keeps the contract of `Intn`. -/
theorem counterRand_inRange : IntnInRange counterRand := by
  intro g n hn
  exact ⟨Int.emod_nonneg _ (ne_of_gt hn), Int.emod_lt_of_pos _ hn⟩

/-- A node that needs children and has none does not evaluate. -/
theorem Eval_none_of_inputs_nil [LinearOrderedField F] (m : GoMath F) (op : Operation F)
    (x y : F) (hin : op.inputs = []) (hc : 1 ≤ op.InputsCount) : Eval m op x y = none := by
  cases op <;> simp only [inputs] at hin <;> simp only [InputsCount] at hc <;>
    first
      | omega
      | (subst hin; simp [Eval, EvalAt])

/-- On the counter generator in state `k`, a depth above 1 gives the entry of
`opsWithLeaves` at the index `k` modulo 9. -/
theorem counterRand_draw_composite (k : ℕ) (depth : Int) (hd : depth > 1) (id : String)
    (hk : stringAt opsWithLeaves (counterRand.Intn k 9).1 = .ok id) :
    ∃ (g : ℕ) (op : Operation ℚ) (g' : ℕ),
      pickOperation counterRand g depth = .ok (op, g') ∧ op.opID = id := by
  obtain ⟨op, g', h1, -, -, -, h5⟩ :=
    pickOperation_composite counterRand counterRand_inRange k depth hd
  rw [hk] at h5
  exact ⟨k, op, g', h1, (Except.ok.inj h5).symm⟩

/-- On the counter generator in state `k`, a depth of at most 1 gives the entry of
`opsNoLeaves` at the index `k` modulo 3. -/
theorem counterRand_draw_leaf (k : ℕ) (depth : Int) (hd : ¬ depth > 1) (id : String)
    (hk : stringAt opsNoLeaves (counterRand.Intn k 3).1 = .ok id) :
    ∃ (g : ℕ) (op : Operation ℚ) (g' : ℕ),
      pickOperation counterRand g depth = .ok (op, g') ∧ op.opID = id := by
  obtain ⟨op, g', h1, -, -, -, h5⟩ :=
    pickOperation_leaf counterRand counterRand_inRange k depth hd
  rw [hk] at h5
  exact ⟨k, op, g', h1, (Except.ok.inj h5).symm⟩

/-- Every entry but the last of the list selected by the depth test is returned on some
state of the counter generator. -/
theorem counterRand_draws_every_entry (depth : Int) (id : String)
    (hid : id ∈ (if depth > 1 then opsWithLeaves else opsNoLeaves).dropLast) :
    ∃ (g : ℕ) (op : Operation ℚ) (g' : ℕ),
      pickOperation counterRand g depth = .ok (op, g') ∧ op.opID = id := by
  by_cases hd : depth > 1
  · rw [if_pos hd] at hid
    simp only [opsWithLeaves, List.dropLast, List.mem_cons, List.mem_singleton,
      List.not_mem_nil, or_false] at hid
    rcases hid with rfl | rfl | rfl | rfl | rfl | rfl | rfl | rfl | rfl
    · exact counterRand_draw_composite 0 depth hd _ rfl
    · exact counterRand_draw_composite 1 depth hd _ rfl
    · exact counterRand_draw_composite 2 depth hd _ rfl
    · exact counterRand_draw_composite 3 depth hd _ rfl
    · exact counterRand_draw_composite 4 depth hd _ rfl
    · exact counterRand_draw_composite 5 depth hd _ rfl
    · exact counterRand_draw_composite 6 depth hd _ rfl
    · exact counterRand_draw_composite 7 depth hd _ rfl
    · exact counterRand_draw_composite 8 depth hd _ rfl
  · rw [if_neg hd] at hid
    simp only [opsNoLeaves, List.dropLast, List.mem_cons, List.mem_singleton,
      List.not_mem_nil, or_false] at hid
    rcases hid with rfl | rfl | rfl
    · exact counterRand_draw_leaf 0 depth hd _ rfl
    · exact counterRand_draw_leaf 1 depth hd _ rfl
    · exact counterRand_draw_leaf 2 depth hd _ rfl

/-- Attaching `InputsCount()` well-formed children makes a node well formed. -/
theorem wellFormed_SetInputs (op : Operation F)
    (cs : List (Operation F)) (hlen : cs.length = op.InputsCount)
    (hcs : allWellFormed cs = true) : wellFormed (op.SetInputs cs) = true := by
  cases op <;> simp only [InputsCount] at hlen <;>
    simp [SetInputs, wellFormed, InputsCount, hlen, hcs]

/-- C2, as stated, fails: on the counter generator in state 0, `pickOperation` at depth 2
returns a ColorMix node with no children attached, although its `InputsCount()` is 3, and
that node does not evaluate. -/
theorem pickOperation_returns_unwired_node :
    IntnInRange counterRand ∧
      pickOperation counterRand 0 2 = .ok (OpColorMix [], 1) ∧
      (OpColorMix [] : Operation ℚ).inputs.length ≠ (OpColorMix [] : Operation ℚ).InputsCount ∧
      Eval ratMath (OpColorMix []) 0 0 = none :=
  ⟨counterRand_inRange, rfl, by decide, by simp [Eval, EvalAt]⟩

/-- C2, amended: for every generator state and every depth above 1, the node returned by
`pickOperation` has no children attached although its `InputsCount()` is at least 1
(`pickOperation` makes no recursive call), so it does not evaluate as returned; it is a
well-formed tree once `InputsCount()` well-formed children are attached with `SetInputs`. -/
theorem pickOperation_composite_unwired [LinearOrderedField F] (R : Rand G F)
    (hR : IntnInRange R) (g : G) (depth : Int) (hd : depth > 1) :
    ∃ op g', pickOperation R g depth = .ok (op, g') ∧ op.inputs = [] ∧
      1 ≤ op.InputsCount ∧ (∀ (m : GoMath F) (x y : F), Eval m op x y = none) ∧
      ∀ cs : List (Operation F), cs.length = op.InputsCount → allWellFormed cs = true →
        wellFormed (op.SetInputs cs) = true := by
  obtain ⟨op, g', h1, h2, h3, -, -⟩ := pickOperation_composite R hR g depth hd
  exact ⟨op, g', h1, h2, h3, fun m x y => Eval_none_of_inputs_nil m op x y h2 h3,
    fun cs hlen hcs => wellFormed_SetInputs op cs hlen hcs⟩

theorem pickOperation_composite_unwired_witness :
    IntnInRange counterRand ∧ (2 : Int) > 1 ∧
      ∃ (op : Operation ℚ) (g' : ℕ), pickOperation counterRand 0 2 = .ok (op, g') ∧
        op.inputs = [] ∧ 1 ≤ op.InputsCount ∧
        (∀ (m : GoMath ℚ) (x y : ℚ), Eval m op x y = none) ∧
        ∀ cs : List (Operation ℚ), cs.length = op.InputsCount → allWellFormed cs = true →
          wellFormed (op.SetInputs cs) = true :=
  ⟨counterRand_inRange, by decide,
    pickOperation_composite_unwired counterRand counterRand_inRange 0 2 (by decide)⟩

/-- C3: with `Intn(n)` in `[0, n)`, for every generator state and every depth,
`pickOperation` returns a node that is not the last entry of either candidate list, so
neither a Tent node nor a Circle node; and every other entry of the list selected by the
depth test is returned for some draw of a generator that keeps the contract. -/
theorem pickOperation_never_last_entry (R : Rand G F) (hR : IntnInRange R) (g : G)
    (depth : Int) :
    (∃ op g', pickOperation R g depth = .ok (op, g') ∧
        some op.opID ≠ opsWithLeaves.getLast? ∧ some op.opID ≠ opsNoLeaves.getLast? ∧
        (∀ inputs, op ≠ OpTent inputs) ∧ (∀ cx cy, op ≠ OpCircle cx cy)) ∧
      ∀ id ∈ (if depth > 1 then opsWithLeaves else opsNoLeaves).dropLast,
        ∃ R' : Rand ℕ ℚ, IntnInRange R' ∧
          ∃ (g0 : ℕ) (op : Operation ℚ) (g' : ℕ),
            pickOperation R' g0 depth = .ok (op, g') ∧ op.opID = id := by
  refine ⟨?_, fun id hid =>
    ⟨counterRand, counterRand_inRange, counterRand_draws_every_entry depth id hid⟩⟩
  by_cases hd : depth > 1
  · obtain ⟨op, g', h1, -, -, h4, -⟩ := pickOperation_composite R hR g depth hd
    refine ⟨op, g', h1, ?_, ?_, ?_, ?_⟩
    · intro h
      rw [Option.some.inj h] at h4
      revert h4
      decide
    · intro h
      rw [Option.some.inj h] at h4
      revert h4
      decide
    · rintro inputs rfl
      simp only [Operation.opID] at h4
      revert h4
      decide
    · rintro cx cy rfl
      simp only [Operation.opID] at h4
      revert h4
      decide
  · obtain ⟨op, g', h1, -, -, h4, -⟩ := pickOperation_leaf R hR g depth hd
    refine ⟨op, g', h1, ?_, ?_, ?_, ?_⟩
    · intro h
      rw [Option.some.inj h] at h4
      revert h4
      decide
    · intro h
      rw [Option.some.inj h] at h4
      revert h4
      decide
    · rintro inputs rfl
      simp only [Operation.opID] at h4
      revert h4
      decide
    · rintro cx cy rfl
      simp only [Operation.opID] at h4
      revert h4
      decide

theorem pickOperation_never_last_entry_witness :
    IntnInRange counterRand ∧
      ((∃ (op : Operation ℚ) (g' : ℕ), pickOperation counterRand 8 2 = .ok (op, g') ∧
          some op.opID ≠ opsWithLeaves.getLast? ∧ some op.opID ≠ opsNoLeaves.getLast? ∧
          (∀ inputs, op ≠ OpTent inputs) ∧ (∀ cx cy, op ≠ OpCircle cx cy)) ∧
        ∀ id ∈ (if (2 : Int) > 1 then opsWithLeaves else opsNoLeaves).dropLast,
          ∃ R' : Rand ℕ ℚ, IntnInRange R' ∧
            ∃ (g0 : ℕ) (op : Operation ℚ) (g' : ℕ),
              pickOperation R' g0 2 = .ok (op, g') ∧ op.opID = id) :=
  ⟨counterRand_inRange, pickOperation_never_last_entry counterRand counterRand_inRange 8 2⟩

/-- C4: for every generator state, `pickOperation` at a depth of at most 1 (zero and
negative depths included) returns a leaf-capable variant (VarX, VarY, Constant or Circle)
with `InputsCount()` 0 and no children attached, and at a depth above 1 it returns a
composite variant with `InputsCount()` at least 1. -/
theorem pickOperation_leaf_or_composite (R : Rand G F) (hR : IntnInRange R) (g : G)
    (depth : Int) :
    (depth ≤ 1 → ∃ op g', pickOperation R g depth = .ok (op, g') ∧
        (op = OpVarX ∨ op = OpVarY ∨ (∃ c, op = OpConstant c) ∨
          ∃ cx cy, op = OpCircle cx cy) ∧
        op.InputsCount = 0 ∧ op.inputs = []) ∧
      (depth > 1 → ∃ op g', pickOperation R g depth = .ok (op, g') ∧
        op.opID ∈ opsWithLeaves ∧ 1 ≤ op.InputsCount) := by
  constructor
  · intro hd
    obtain ⟨op, g', h1, h2, h3, h4, -⟩ := pickOperation_leaf R hR g depth (not_lt.mpr hd)
    refine ⟨op, g', h1, ?_, h3, h2⟩
    cases op <;> simp [InputsCount] at h3 <;> simp
  · intro hd
    obtain ⟨op, g', h1, -, h3, h4, -⟩ := pickOperation_composite R hR g depth hd
    exact ⟨op, g', h1, List.dropLast_subset _ h4, h3⟩

theorem pickOperation_leaf_or_composite_witness :
    IntnInRange counterRand ∧
      (((0 : Int) ≤ 1 → ∃ (op : Operation ℚ) (g' : ℕ),
          pickOperation counterRand 2 0 = .ok (op, g') ∧
          (op = OpVarX ∨ op = OpVarY ∨ (∃ c, op = OpConstant c) ∨
            ∃ cx cy, op = OpCircle cx cy) ∧
          op.InputsCount = 0 ∧ op.inputs = []) ∧
        ((0 : Int) > 1 → ∃ (op : Operation ℚ) (g' : ℕ),
          pickOperation counterRand 2 0 = .ok (op, g') ∧
          op.opID ∈ opsWithLeaves ∧ 1 ≤ op.InputsCount)) :=
  ⟨counterRand_inRange, pickOperation_leaf_or_composite counterRand counterRand_inRange 2 0⟩

end FactoryTheorems

section NodeTheorems

variable {F : Type} [LinearOrderedField F]

open Operation

/-- Evaluation of the child at an index below `n` only looks at the first `n` children. -/
theorem EvalAt_take (m : GoMath F) (x y : F) :
    ∀ (cs : List (Operation F)) (n i : Nat), i < n →
      EvalAt m (cs.take n) i x y = EvalAt m cs i x y
  | [], n, i, _ => by simp
  | c :: cs, 0, i, h => absurd h (Nat.not_lt_zero i)
  | c :: cs, n + 1, 0, _ => by simp [EvalAt]
  | c :: cs, n + 1, i + 1, h => by
      simpa [EvalAt] using EvalAt_take m x y cs n i (by omega)

/-- C15: an Inverse node with child A evaluates to (1 - A.r, 1 - A.g, 1 - A.b); in
particular Inverse(Constant(0.3)) evaluates to (0.7, 0.7, 0.7) at every (x, y). -/
theorem OpInverse_Eval_one_minus (m : GoMath F) (A : Operation F) (x y r g b : F)
    (hA : Eval m A x y = some [r, g, b]) :
    Eval m (OpInverse [A]) x y = some [1 - r, 1 - g, 1 - b] ∧
      ∀ x' y' : F, Eval m (OpInverse [OpConstant (3 / 10)]) x' y'
        = some [7 / 10, 7 / 10, 7 / 10] := by
  constructor
  · simp [Eval, EvalAt, hA, index]
  · intro x' y'
    have h : (1 : F) - 3 / 10 = 7 / 10 := by norm_num
    simp [Eval, EvalAt, index, h]

theorem OpInverse_Eval_one_minus_witness :
    Eval ratMath (OpVarY : Operation ℚ) 1 2 = some [2, 2, 2] ∧
      (Eval ratMath (OpInverse [OpVarY]) 1 2 = some [1 - 2, 1 - 2, 1 - 2] ∧
        ∀ x' y' : ℚ, Eval ratMath (OpInverse [OpConstant (3 / 10)]) x' y'
          = some [7 / 10, 7 / 10, 7 / 10]) :=
  ⟨by simp [Eval], OpInverse_Eval_one_minus ratMath OpVarY 1 2 2 2 2 (by simp [Eval])⟩

/-- C16: VarX evaluates to (x, x, x), VarY to (y, y, y) and Constant(c) to (c, c, c), and
the results are the same after SetInputs with any list of children. -/
theorem leaf_Eval_ignores_inputs (m : GoMath F) (x y c : F) (cs : List (Operation F)) :
    Eval m OpVarX x y = some [x, x, x] ∧ Eval m OpVarY x y = some [y, y, y] ∧
      Eval m (OpConstant c) x y = some [c, c, c] ∧
      Eval m (OpVarX.SetInputs cs) x y = some [x, x, x] ∧
      Eval m (OpVarY.SetInputs cs) x y = some [y, y, y] ∧
      Eval m ((OpConstant c).SetInputs cs) x y = some [c, c, c] := by
  simp [Eval, SetInputs]

/-- C17: InputsCount() is 0 for VarX, VarY, Constant and Circle, 1 for Inverse, Well and
Tent, 2 for Sum, Product and Mod, 3 for ColorMix, PerChannelMask, BinaryMask and
SmoothMix, whatever the parameters and the attached children; SetInputs does not change
it; and Eval reads children only at indices below that count: it gives the same result
when the children from index InputsCount() on are dropped. -/
theorem InputsCount_fixed_per_variant (m : GoMath F) (cs : List (Operation F))
    (c c' x y : F) :
    ((OpVarX : Operation F).InputsCount = 0 ∧ (OpVarY : Operation F).InputsCount = 0 ∧
        (OpConstant c).InputsCount = 0 ∧ (OpCircle c c').InputsCount = 0) ∧
      ((OpInverse cs).InputsCount = 1 ∧ (OpWell cs).InputsCount = 1 ∧
        (OpTent cs).InputsCount = 1) ∧
      ((OpSum cs).InputsCount = 2 ∧ (OpProduct cs).InputsCount = 2 ∧
        (OpMod cs).InputsCount = 2) ∧
      ((OpColorMix cs).InputsCount = 3 ∧ (OpPerChannelMask cs c).InputsCount = 3 ∧
        (OpBinaryMask cs c).InputsCount = 3 ∧ (OpSmoothMix cs c).InputsCount = 3) ∧
      (∀ op : Operation F, (op.SetInputs cs).InputsCount = op.InputsCount) ∧
      ∀ op : Operation F,
        Eval m (op.SetInputs (cs.take op.InputsCount)) x y = Eval m (op.SetInputs cs) x y := by
  refine ⟨⟨rfl, rfl, rfl, rfl⟩, ⟨rfl, rfl, rfl⟩, ⟨rfl, rfl, rfl⟩, ⟨rfl, rfl, rfl, rfl⟩, ?_, ?_⟩
  · intro op
    cases op <;> rfl
  · intro op
    cases op <;>
      simp only [SetInputs, InputsCount, Eval, EvalAt_take m x y cs _ _ (by decide : 0 < 1),
        EvalAt_take m x y cs _ _ (by decide : 0 < 2),
        EvalAt_take m x y cs _ _ (by decide : 1 < 2),
        EvalAt_take m x y cs _ _ (by decide : 0 < 3),
        EvalAt_take m x y cs _ _ (by decide : 1 < 3),
        EvalAt_take m x y cs _ _ (by decide : 2 < 3)]

end NodeTheorems

section FactoryDepthTheorems

variable {G F : Type}

open Operation

/-- A node without attached children is a tree of depth 1. -/
theorem treeDepth_of_inputs_nil (op : Operation F) (hin : op.inputs = []) :
    treeDepth op = 1 := by
  cases op <;> simp only [inputs] at hin <;> first
    | rfl
    | (subst hin; simp [treeDepth, maxTreeDepth])

/-- C18: with `Intn(n)` in `[0, n)`, for every generator state and every depth the
identifier selected by `pickOperation` is one of the 14 identifiers handled by the
switch, so `pickOperation` returns a node: it never reaches the fatal default case. -/
theorem pickOperation_default_unreachable (R : Rand G F) (hR : IntnInRange R) (g : G)
    (depth : Int) :
    (∃ id op g',
        stringAt (if depth > 1 then opsWithLeaves else opsNoLeaves)
          (R.Intn g (if depth > 1 then 9 else 3)).1 = .ok id ∧
        id ∈ opsNoLeaves ++ opsWithLeaves ∧
        pickOperation R g depth = .ok (op, g') ∧ op.opID = id) ∧
      ∀ msg, pickOperation R g depth ≠ .error (.fatal msg) := by
  by_cases hd : depth > 1
  · obtain ⟨op, g', h1, -, -, h4, h5⟩ := pickOperation_composite R hR g depth hd
    refine ⟨⟨op.opID, op, g', ?_, ?_, h1, rfl⟩, ?_⟩
    · simpa [hd] using h5
    · exact List.mem_append_right _ (List.dropLast_subset _ h4)
    · intro msg h
      rw [h1] at h
      cases h
  · obtain ⟨op, g', h1, -, -, h4, h5⟩ := pickOperation_leaf R hR g depth hd
    refine ⟨⟨op.opID, op, g', ?_, ?_, h1, rfl⟩, ?_⟩
    · simpa [hd] using h5
    · exact List.mem_append_left _ (List.dropLast_subset _ h4)
    · intro msg h
      rw [h1] at h
      cases h

theorem pickOperation_default_unreachable_witness :
    IntnInRange counterRand ∧
      ((∃ (id : String) (op : Operation ℚ) (g' : ℕ),
          stringAt (if (2 : Int) > 1 then opsWithLeaves else opsNoLeaves)
            (counterRand.Intn 5 (if (2 : Int) > 1 then 9 else 3)).1 = .ok id ∧
          id ∈ opsNoLeaves ++ opsWithLeaves ∧
          pickOperation counterRand 5 2 = .ok (op, g') ∧ op.opID = id) ∧
        ∀ msg, pickOperation counterRand 5 2
          ≠ (.error (.fatal msg) : Except Failure (Operation ℚ × ℕ))) :=
  ⟨counterRand_inRange, pickOperation_default_unreachable counterRand counterRand_inRange 5 2⟩

end FactoryDepthTheorems

section NumericTheorems

variable {F : Type} [LinearOrderedField F]

open Operation

/-- `math.Pow` with the exponent 8 on the rationals is the eighth power. -/
theorem ratMath_Pow_eight (u : ℚ) : ratMath.Pow u 8 = u ^ 8 := by
  show u ^ ⌊(8 : ℚ)⌋ = u ^ 8
  have h : ⌊(8 : ℚ)⌋ = 8 := by simp
  rw [h]
  norm_cast

/-- The value of `well` when `math.Pow(u, 8)` is the eighth power. -/
theorem well_eq (m : GoMath F) (hPow : ∀ u, m.Pow u 8 = u ^ 8) (v : F) :
    well m v = (1 - 2 / (1 + v ^ 2)) ^ 8 := by
  simp [well, hPow, sq]

/-- The denominator of `well` is at least 1. -/
theorem one_le_one_add_sq (v : F) : 1 ≤ 1 + v ^ 2 := by
  have h : 0 ≤ v ^ 2 := sq_nonneg v
  linarith

/-- The base of the eighth power in `well` lies in `[-1, 1)`. -/
theorem well_base_bounds (v : F) :
    -1 ≤ 1 - 2 / (1 + v ^ 2) ∧ 1 - 2 / (1 + v ^ 2) < 1 := by
  have h1 : 1 ≤ 1 + v ^ 2 := one_le_one_add_sq v
  have h0 : 0 < 1 + v ^ 2 := by linarith
  have h2 : 2 / (1 + v ^ 2) ≤ 2 := by
    rw [div_le_iff₀ h0]
    nlinarith
  have h3 : 0 < 2 / (1 + v ^ 2) := div_pos (by norm_num) h0
  constructor <;> linarith

/-- An eighth power of a number between -1 and 1 lies between 0 and 1. -/
theorem pow_eight_bounds (u : F) (h1 : -1 ≤ u) (h2 : u ≤ 1) : 0 ≤ u ^ 8 ∧ u ^ 8 ≤ 1 := by
  have hsq : u ^ 2 ≤ 1 := by nlinarith
  have h8 : u ^ 8 = (u ^ 2) ^ 4 := by ring
  rw [h8]
  exact ⟨pow_nonneg (sq_nonneg u) 4, pow_le_one₀ (sq_nonneg u) hsq⟩

/-- The base of the eighth power in `well` is zero exactly when `|v| = 1`. -/
theorem well_base_eq_zero_iff (v : F) : 1 - 2 / (1 + v ^ 2) = 0 ↔ |v| = 1 := by
  have h0 : 0 < 1 + v ^ 2 := by linarith [one_le_one_add_sq v]
  have h0' : (1 + v ^ 2) ≠ 0 := ne_of_gt h0
  rw [sub_eq_zero, eq_comm, div_eq_iff h0', ← sq_eq_sq₀ (abs_nonneg v) zero_le_one, sq_abs]
  constructor <;> intro h <;> linarith

/-- Far from 0 the value of the eighth power in `well` is close to 1. -/
theorem well_value_tends_to_one (ε : F) (hε : 0 < ε) :
    ∃ N : F, ∀ v : F, N < |v| → |(1 - 2 / (1 + v ^ 2)) ^ 8 - 1| < ε := by
  refine ⟨max 1 (16 / ε), fun v hv => ?_⟩
  have hv1 : 1 < |v| := lt_of_le_of_lt (le_max_left _ _) hv
  have hv2 : 16 / ε < |v| := lt_of_le_of_lt (le_max_right _ _) hv
  have hsq : |v| < v ^ 2 := by
    rw [← sq_abs]
    nlinarith
  have h0 : 0 < 1 + v ^ 2 := by linarith [one_le_one_add_sq v]
  have hu1 : 2 / (1 + v ^ 2) < 1 := by
    rw [div_lt_iff₀ h0]
    linarith
  have hu0 : 0 < 2 / (1 + v ^ 2) := div_pos (by norm_num) h0
  have hle : (1 - 2 / (1 + v ^ 2)) ^ 8 ≤ 1 :=
    (pow_eight_bounds _ (by linarith) (by linarith)).2
  have hbern : 1 + (8 : ℕ) * (-(2 / (1 + v ^ 2))) ≤ (1 + -(2 / (1 + v ^ 2))) ^ 8 :=
    one_add_mul_le_pow (by linarith) 8
  have h16 : 16 / (1 + v ^ 2) < ε := by
    rw [div_lt_iff₀ h0]
    have h : 16 < ε * |v| := by
      rw [div_lt_iff₀ hε] at hv2
      linarith
    nlinarith
  have h16' : 16 / (1 + v ^ 2) = 8 * (2 / (1 + v ^ 2)) := by ring
  rw [abs_lt]
  constructor
  · have : (1 + -(2 / (1 + v ^ 2))) = 1 - 2 / (1 + v ^ 2) := by ring
    rw [this] at hbern
    push_cast at hbern
    linarith
  · linarith

/-- C12: a Well node with child A evaluates to well(v) = (1 - 2/(1 + v^2))^8 of each
channel v of A's output; the denominator 1 + v^2 is at least 1 and so never zero;
well(0) = 1; well(-v) = well(v); and well(v) tends to 1 as |v| grows without bound. -/
theorem OpWell_Eval_well (m : GoMath F) (hPow : ∀ u, m.Pow u 8 = u ^ 8) (A : Operation F)
    (x y r g b : F) (hA : Eval m A x y = some [r, g, b]) :
    Eval m (OpWell [A]) x y = some [well m r, well m g, well m b] ∧
      (∀ v, well m v = (1 - 2 / (1 + v ^ 2)) ^ 8 ∧ 1 ≤ 1 + v ^ 2 ∧ 1 + v ^ 2 ≠ 0 ∧
        well m (-v) = well m v) ∧
      well m 0 = 1 ∧
      ∀ ε : F, 0 < ε → ∃ N : F, ∀ v : F, N < |v| → |well m v - 1| < ε := by
  refine ⟨by simp [Eval, EvalAt, hA, index], fun v => ⟨well_eq m hPow v,
    one_le_one_add_sq v, ne_of_gt (by linarith [one_le_one_add_sq v]), ?_⟩, ?_, ?_⟩
  · rw [well_eq m hPow, well_eq m hPow, neg_sq]
  · rw [well_eq m hPow]
    norm_num
  · intro ε hε
    obtain ⟨N, hN⟩ := well_value_tends_to_one ε hε
    exact ⟨N, fun v hv => by rw [well_eq m hPow]; exact hN v hv⟩

theorem OpWell_Eval_well_witness :
    (∀ u, ratMath.Pow u 8 = u ^ 8) ∧
      Eval ratMath (OpVarX : Operation ℚ) 3 0 = some [3, 3, 3] ∧
      (Eval ratMath (OpWell [OpVarX]) 3 0
          = some [well ratMath 3, well ratMath 3, well ratMath 3] ∧
        (∀ v, well ratMath v = (1 - 2 / (1 + v ^ 2)) ^ 8 ∧ 1 ≤ 1 + v ^ 2 ∧ 1 + v ^ 2 ≠ 0 ∧
          well ratMath (-v) = well ratMath v) ∧
        well ratMath 0 = 1 ∧
        ∀ ε : ℚ, 0 < ε → ∃ N : ℚ, ∀ v : ℚ, N < |v| → |well ratMath v - 1| < ε) :=
  ⟨ratMath_Pow_eight, by simp [Eval],
    OpWell_Eval_well ratMath ratMath_Pow_eight OpVarX 3 0 3 3 3 (by simp [Eval])⟩

/-- Truncation toward zero moves a number by less than 1, toward zero. -/
theorem trunc_bounds [FloorRing F] (q : F) :
    (0 ≤ q → 0 ≤ trunc q ∧ 0 ≤ q - trunc q ∧ q - trunc q < 1) ∧
      (q < 0 → trunc q ≤ 0 ∧ -1 < q - trunc q ∧ q - trunc q ≤ 0) := by
  constructor
  · intro hq
    have h1 : ((⌊q⌋ : ℤ) : F) ≤ q := Int.floor_le q
    have h2 : q < ((⌊q⌋ : ℤ) : F) + 1 := Int.lt_floor_add_one q
    have h3 : (0 : F) ≤ ((⌊q⌋ : ℤ) : F) := by exact_mod_cast Int.floor_nonneg.mpr hq
    simp only [trunc, if_pos hq]
    refine ⟨h3, ?_, ?_⟩ <;> linarith
  · intro hq
    have h1 : q ≤ ((⌈q⌉ : ℤ) : F) := Int.le_ceil q
    have h2 : ((⌈q⌉ : ℤ) : F) < q + 1 := Int.ceil_lt_add_one q
    have h3 : ((⌈q⌉ : ℤ) : F) ≤ 0 := by
      have : ⌈q⌉ ≤ 0 := Int.ceil_le.mpr (by simpa using le_of_lt hq)
      exact_mod_cast this
    simp only [trunc, if_neg (not_le.mpr hq)]
    refine ⟨h3, ?_, ?_⟩ <;> linarith

/-- The truncated-division remainder by a non-zero divisor is smaller than the divisor in
absolute value, and it is zero or has the sign of the dividend. -/
theorem truncMod_spec [FloorRing F] (a b : F) (hb : b ≠ 0) :
    |truncMod a b| < |b| ∧
      (truncMod a b = 0 ∨ (0 < truncMod a b ∧ 0 < a) ∨ (truncMod a b < 0 ∧ a < 0)) := by
  have hr : truncMod a b = b * (a / b - trunc (a / b)) := by
    unfold truncMod
    rw [mul_sub, mul_div_cancel₀ a hb]
  have ha : a = b * (trunc (a / b) + (a / b - trunc (a / b))) := by
    rw [add_sub_cancel, mul_div_cancel₀ a hb]
  obtain ⟨hpos, hneg⟩ := trunc_bounds (a / b)
  generalize a / b - trunc (a / b) = d at hr ha hpos hneg
  generalize trunc (a / b) = t at ha hpos hneg
  have hbabs : 0 < |b| := abs_pos.mpr hb
  rw [hr]
  by_cases hq : 0 ≤ a / b
  · obtain ⟨ht, hd0, hd1⟩ := hpos hq
    constructor
    · rw [abs_mul, abs_of_nonneg hd0]
      nlinarith
    · rcases eq_or_lt_of_le hd0 with hd | hd
      · left
        rw [← hd, mul_zero]
      · have htd : 0 < t + d := by linarith
        rcases lt_or_gt_of_ne hb with hb' | hb'
        · right; right
          exact ⟨mul_neg_of_neg_of_pos hb' hd, by rw [ha]; exact mul_neg_of_neg_of_pos hb' htd⟩
        · right; left
          exact ⟨mul_pos hb' hd, by rw [ha]; exact mul_pos hb' htd⟩
  · obtain ⟨ht, hd0, hd1⟩ := hneg (not_le.mp hq)
    constructor
    · rw [abs_mul, abs_of_nonpos hd1]
      nlinarith
    · rcases eq_or_lt_of_le hd1 with hd | hd
      · left
        rw [hd, mul_zero]
      · have htd : t + d < 0 := by linarith
        rcases lt_or_gt_of_ne hb with hb' | hb'
        · right; left
          exact ⟨mul_pos_of_neg_of_neg hb' hd, by rw [ha]; exact mul_pos_of_neg_of_neg hb' htd⟩
        · right; right
          exact ⟨mul_neg_of_pos_of_neg hb' hd, by rw [ha]; exact mul_neg_of_pos_of_neg hb' htd⟩

/-- C13: a Tent node with child A evaluates to tent(v) = 1 - 2*|v| of each channel v of
A's output; tent(0) = 1, tent(0.5) = 0, tent(-0.5) = 0; tent maps [-1, 1] into [-1, 1];
and tent is not an involution on [-1, 1]. -/
theorem OpTent_Eval_tent (m : GoMath F) (hAbs : ∀ v, m.Abs v = |v|) (A : Operation F)
    (x y r g b : F) (hA : Eval m A x y = some [r, g, b]) :
    Eval m (OpTent [A]) x y = some [tent m r, tent m g, tent m b] ∧
      (∀ v, tent m v = 1 - 2 * |v|) ∧
      tent m 0 = 1 ∧ tent m (1 / 2) = 0 ∧ tent m (-(1 / 2)) = 0 ∧
      (∀ v, -1 ≤ v → v ≤ 1 → -1 ≤ tent m v ∧ tent m v ≤ 1) ∧
      ∃ v, -1 ≤ v ∧ v ≤ 1 ∧ tent m (tent m v) ≠ v := by
  have ht : ∀ v, tent m v = 1 - 2 * |v| := fun v => by simp [tent, hAbs]
  refine ⟨by simp [Eval, EvalAt, hA, index], ht, ?_, ?_, ?_, ?_, ?_⟩
  · simp [ht]
  · rw [ht, abs_of_pos (by norm_num : (0 : F) < 1 / 2)]
    norm_num
  · rw [ht, abs_neg, abs_of_pos (by norm_num : (0 : F) < 1 / 2)]
    norm_num
  · intro v h1 h2
    have h3 : |v| ≤ 1 := abs_le.mpr ⟨h1, h2⟩
    have h4 : 0 ≤ |v| := abs_nonneg v
    rw [ht]
    constructor <;> linarith
  · refine ⟨0, by norm_num, by norm_num, ?_⟩
    rw [ht 0, abs_zero, mul_zero, sub_zero, ht 1, abs_one]
    norm_num

theorem OpTent_Eval_tent_witness :
    (∀ v, ratMath.Abs v = |v|) ∧
      Eval ratMath (OpVarX : Operation ℚ) (1 / 2) 0 = some [1 / 2, 1 / 2, 1 / 2] ∧
      (Eval ratMath (OpTent [OpVarX]) (1 / 2) 0
          = some [tent ratMath (1 / 2), tent ratMath (1 / 2), tent ratMath (1 / 2)] ∧
        (∀ v, tent ratMath v = 1 - 2 * |v|) ∧
        tent ratMath 0 = 1 ∧ tent ratMath (1 / 2) = 0 ∧ tent ratMath (-(1 / 2)) = 0 ∧
        (∀ v, -1 ≤ v → v ≤ 1 → -1 ≤ tent ratMath v ∧ tent ratMath v ≤ 1) ∧
        ∃ v, -1 ≤ v ∧ v ≤ 1 ∧ tent ratMath (tent ratMath v) ≠ v) :=
  ⟨fun _ => rfl, by simp [Eval],
    OpTent_Eval_tent ratMath (fun _ => rfl) OpVarX (1 / 2) 0 (1 / 2) (1 / 2) (1 / 2)
      (by simp [Eval])⟩

/-- C14: a Circle node with center (cx, cy) evaluates at (x, y) to (h, h, h) with
h = sqrt((x - cx)^2 + (y - cy)^2); at its own center it evaluates to (0, 0, 0), and h is
never negative.  (`math.Hypot(p, q)` is `Sqrt(p*p + q*q)`, with `Sqrt(0) = 0` and
`Sqrt` never negative.) -/
theorem OpCircle_Eval_distance (m : GoMath F)
    (hHypot : ∀ p q, m.Hypot p q = m.Sqrt (p * p + q * q)) (hSqrt0 : m.Sqrt 0 = 0)
    (hSqrt : ∀ a, 0 ≤ m.Sqrt a) (cx cy x y : F) :
    Eval m (OpCircle cx cy) x y
        = some [m.Sqrt ((x - cx) ^ 2 + (y - cy) ^ 2), m.Sqrt ((x - cx) ^ 2 + (y - cy) ^ 2),
            m.Sqrt ((x - cx) ^ 2 + (y - cy) ^ 2)] ∧
      Eval m (OpCircle cx cy) cx cy = some [0, 0, 0] ∧
      0 ≤ m.Sqrt ((x - cx) ^ 2 + (y - cy) ^ 2) := by
  refine ⟨?_, ?_, hSqrt _⟩
  · simp [Eval, hHypot, sq]
  · simp [Eval, hHypot, hSqrt0]

theorem OpCircle_Eval_distance_witness :
    (∀ p q, ratMath.Hypot p q = ratMath.Sqrt (p * p + q * q)) ∧ ratMath.Sqrt 0 = 0 ∧
      (∀ a, 0 ≤ ratMath.Sqrt a) ∧
      (Eval ratMath (OpCircle 1 2) 4 6
          = some [ratMath.Sqrt ((4 - 1) ^ 2 + (6 - 2) ^ 2),
              ratMath.Sqrt ((4 - 1) ^ 2 + (6 - 2) ^ 2),
              ratMath.Sqrt ((4 - 1) ^ 2 + (6 - 2) ^ 2)] ∧
        Eval ratMath (OpCircle 1 2) 1 2 = some [0, 0, 0] ∧
        0 ≤ ratMath.Sqrt ((4 - 1) ^ 2 + (6 - 2) ^ 2)) :=
  have hs0 : ratMath.Sqrt 0 = 0 := by
    have h : (0 : ℚ) = 0 * 0 := by norm_num
    show Rat.sqrt 0 = 0
    rw [h, Rat.sqrt_eq]
    norm_num
  ⟨fun _ _ => rfl, hs0, fun a => Rat.sqrt_nonneg a,
    OpCircle_Eval_distance ratMath (fun _ _ => rfl) hs0 (fun a => Rat.sqrt_nonneg a) 1 2 4 6⟩

end NumericTheorems

section FloatValTheorems

open Operation FloatVal

theorem FloatVal.zero_eq : (0 : FloatVal) = num 0 := rfl

theorem FloatVal.one_eq : (1 : FloatVal) = num 1 := rfl

theorem FloatVal.two_eq : (2 : FloatVal) = num 2 := rfl

theorem FloatVal.eight_eq : (8 : FloatVal) = num 8 := rfl

@[simp] theorem FloatVal.num_add_num (a b : ℚ) : num a + num b = num (a + b) := rfl

@[simp] theorem FloatVal.nan_add (x : FloatVal) : nan + x = nan := by cases x <;> rfl

@[simp] theorem FloatVal.add_nan (x : FloatVal) : x + nan = nan := by cases x <;> rfl

@[simp] theorem FloatVal.num_sub_num (a b : ℚ) : num a - num b = num (a - b) := by
  show num (a + -b) = num (a - b)
  rw [sub_eq_add_neg]

@[simp] theorem FloatVal.nan_sub (x : FloatVal) : nan - x = nan := by cases x <;> rfl

@[simp] theorem FloatVal.sub_nan (x : FloatVal) : x - nan = nan := by cases x <;> rfl

@[simp] theorem FloatVal.num_mul_num (a b : ℚ) : num a * num b = num (a * b) := rfl

@[simp] theorem FloatVal.nan_mul (x : FloatVal) : nan * x = nan := by cases x <;> rfl

@[simp] theorem FloatVal.mul_nan (x : FloatVal) : x * nan = nan := by cases x <;> rfl

theorem FloatVal.num_div_num (a b : ℚ) (hb : b ≠ 0) : num a / num b = num (a / b) := by
  show FloatVal.div (num a) (num b) = num (a / b)
  simp [FloatVal.div, hb]

@[simp] theorem FloatVal.nan_div (x : FloatVal) : nan / x = nan := by cases x <;> rfl

@[simp] theorem FloatVal.div_nan (x : FloatVal) : x / nan = nan := by cases x <;> rfl

@[simp] theorem FloatVal.num_lt_num (a b : ℚ) : num a < num b ↔ a < b := by
  show ltb (num a) (num b) = true ↔ a < b
  simp [ltb]

@[simp] theorem FloatVal.num_le_num (a b : ℚ) : num a ≤ num b ↔ a ≤ b := by
  show leb (num a) (num b) = true ↔ a ≤ b
  simp [leb]

@[simp] theorem FloatVal.not_nan_lt (x : FloatVal) : ¬ nan < x := by
  show ¬ ltb nan x = true
  cases x <;> simp [ltb]

@[simp] theorem FloatVal.not_lt_nan (x : FloatVal) : ¬ x < nan := by
  show ¬ ltb x nan = true
  cases x <;> simp [ltb]

@[simp] theorem FloatVal.not_nan_le (x : FloatVal) : ¬ nan ≤ x := by
  show ¬ leb nan x = true
  cases x <;> simp [leb]

@[simp] theorem FloatVal.not_le_nan (x : FloatVal) : ¬ x ≤ nan := by
  show ¬ leb x nan = true
  cases x <;> simp [leb]

/-- `math.Pow(NaN, 8)` is NaN. -/
theorem nanMath_Pow_nan_eight : nanMath.Pow nan 8 = nan := by
  simp [nanMath, FloatVal.eight_eq]

/-- `math.Pow(u, 8)` of a finite number is its eighth power. -/
theorem nanMath_Pow_num_eight (u : ℚ) : nanMath.Pow (num u) 8 = num (u ^ 8) := by
  have h : ⌊(8 : ℚ)⌋ = 8 := by simp
  by_cases hu : u = 1
  · subst hu
    simp [nanMath, FloatVal.eight_eq]
  · simp only [nanMath, FloatVal.eight_eq]
    rw [if_neg (by simp), if_neg (by simp [hu])]
    show (if u = 0 ∧ (8 : ℚ) < 0 then posInf else num (u ^ ⌊(8 : ℚ)⌋)) = num (u ^ 8)
    rw [if_neg (by norm_num), h]
    norm_cast

/-- `math.Mod` of a finite number by a non-zero finite number is the truncated-division
remainder. -/
theorem nanMath_Mod_num (a b : ℚ) (hb : b ≠ 0) :
    nanMath.Mod (num a) (num b) = num (truncMod a b) := by
  simp [nanMath, hb]

/-- `math.Mod(x, 0)` is NaN. -/
theorem nanMath_Mod_zero (x : FloatVal) : nanMath.Mod x 0 = nan := by
  cases x <;> simp [nanMath, FloatVal.zero_eq]

/-- `math.Mod(NaN, y)` is NaN. -/
theorem nanMath_Mod_nan_left (y : FloatVal) : nanMath.Mod nan y = nan := by
  cases y <;> rfl

/-- `math.Mod(x, NaN)` is NaN. -/
theorem nanMath_Mod_nan_right (x : FloatVal) : nanMath.Mod x nan = nan := by
  cases x <;> rfl

/-- `math.Mod(±Inf, y)` is NaN. -/
theorem nanMath_Mod_inf_left (y : FloatVal) :
    nanMath.Mod posInf y = nan ∧ nanMath.Mod negInf y = nan := by
  cases y <;> exact ⟨rfl, rfl⟩

/-- `math.Mod(x, ±Inf)` is `x` for a finite `x`. -/
theorem nanMath_Mod_inf_right (a : ℚ) :
    nanMath.Mod (num a) posInf = num a ∧ nanMath.Mod (num a) negInf = num a :=
  ⟨rfl, rfl⟩

/-- The value of `well` at a finite number. -/
theorem well_num (m : GoMath FloatVal) (hPow : ∀ u : ℚ, m.Pow (num u) 8 = num (u ^ 8))
    (v : ℚ) : well m (num v) = num ((1 - 2 / (1 + v ^ 2)) ^ 8) := by
  have h0 : (1 + v * v) ≠ 0 := by
    have h := one_le_one_add_sq v
    rw [sq] at h
    exact ne_of_gt (by linarith)
  unfold well
  rw [FloatVal.one_eq, FloatVal.two_eq, FloatVal.num_mul_num, FloatVal.num_add_num,
    FloatVal.num_div_num _ _ h0, FloatVal.num_sub_num, hPow, sq]

/-- The value of `well` at NaN. -/
theorem well_nan (m : GoMath FloatVal) (hNaN : m.Pow nan 8 = nan) : well m nan = nan := by
  unfold well
  rw [FloatVal.mul_nan, FloatVal.add_nan, FloatVal.div_nan, FloatVal.sub_nan, hNaN]

/-- The value of `well` at the infinities: `1 + Inf * Inf` is `+Inf`, `2 / +Inf` is 0 and
`Pow(1, 8)` is 1. -/
theorem well_inf (m : GoMath FloatVal) (hPow : ∀ u : ℚ, m.Pow (num u) 8 = num (u ^ 8)) :
    well m posInf = num 1 ∧ well m negInf = num 1 := by
  have hp : (1 : FloatVal) - 2 / (1 + posInf * posInf) = num (1 + -0) := rfl
  have hn : (1 : FloatVal) - 2 / (1 + negInf * negInf) = num (1 + -0) := rfl
  unfold well
  rw [hp, hn, hPow]
  norm_num

/-- The channel function `well` on every `float64` value: NaN exactly at NaN, and in [0, 1]
everywhere else. -/
theorem well_range (m : GoMath FloatVal) (hPow : ∀ u : ℚ, m.Pow (num u) 8 = num (u ^ 8))
    (hNaN : m.Pow nan 8 = nan) (c : FloatVal) :
    (c = nan → well m c = nan) ∧
      (c ≠ nan → (0 : FloatVal) ≤ well m c ∧ well m c ≤ (1 : FloatVal)) := by
  refine ⟨fun hc => by rw [hc]; exact well_nan m hNaN, fun hc => ?_⟩
  rw [FloatVal.zero_eq, FloatVal.one_eq]
  cases c with
  | num v =>
    have hb := well_base_bounds v
    have hw := pow_eight_bounds (1 - 2 / (1 + v ^ 2)) hb.1 (le_of_lt hb.2)
    rw [well_num m hPow v, FloatVal.num_le_num, FloatVal.num_le_num]
    exact hw
  | posInf =>
    rw [(well_inf m hPow).1, FloatVal.num_le_num, FloatVal.num_le_num]
    norm_num
  | negInf =>
    rw [(well_inf m hPow).2, FloatVal.num_le_num, FloatVal.num_le_num]
    norm_num
  | nan => exact absurd rfl hc

/-- C20, as stated, fails: the Well node over Mod(VarX, VarY), a well-formed tree,
evaluates at (1, 0) to (NaN, NaN, NaN), because `math.Mod(1, 0)` is NaN and
`math.Pow(NaN, 8)` is NaN; NaN is not in [0, 1]. -/
theorem OpWell_Eval_nan_outside_unit_interval :
    wellFormed (OpWell [OpMod [OpVarX, OpVarY]] : Operation FloatVal) = true ∧
      Eval nanMath (OpMod [OpVarX, OpVarY]) 1 0 = some [nan, nan, nan] ∧
      Eval nanMath (OpWell [OpMod [OpVarX, OpVarY]]) 1 0 = some [nan, nan, nan] ∧
      ¬ ((0 : FloatVal) ≤ nan ∧ nan ≤ (1 : FloatVal)) := by
  refine ⟨by simp [wellFormed, allWellFormed, InputsCount], ?_, ?_, fun h => ?_⟩
  · simp [Eval, EvalAt, index, nanMath_Mod_zero]
  · simp [Eval, EvalAt, index, nanMath_Mod_zero, well_nan nanMath nanMath_Pow_nan_eight]
  · exact FloatVal.not_le_nan 0 h.1

/-- C20, amended: for every finite v, well(v) = (1 - 2/(1 + v^2))^8 lies in [0, 1], and it
is 0 exactly when |v| = 1; well(+Inf) = well(-Inf) = 1 and well(NaN) is NaN; hence a
channel of the output of a Well node is in [0, 1] whenever the same channel of its child's
output is not NaN, and it is NaN when that channel is NaN. -/
theorem OpWell_Eval_unit_interval_or_nan (m : GoMath FloatVal)
    (hPow : ∀ u : ℚ, m.Pow (num u) 8 = num (u ^ 8)) (hNaN : m.Pow nan 8 = nan)
    (A : Operation FloatVal) (x y r g b : FloatVal)
    (hA : Eval m A x y = some [r, g, b]) :
    Eval m (OpWell [A]) x y = some [well m r, well m g, well m b] ∧
      (∀ v : ℚ, well m (num v) = num ((1 - 2 / (1 + v ^ 2)) ^ 8) ∧
        0 ≤ (1 - 2 / (1 + v ^ 2)) ^ 8 ∧ (1 - 2 / (1 + v ^ 2)) ^ 8 ≤ 1 ∧
        ((1 - 2 / (1 + v ^ 2)) ^ 8 = 0 ↔ |v| = 1)) ∧
      well m posInf = 1 ∧ well m negInf = 1 ∧ well m nan = nan ∧
      ∀ c ∈ [r, g, b], (c = nan → well m c = nan) ∧
        (c ≠ nan → (0 : FloatVal) ≤ well m c ∧ well m c ≤ (1 : FloatVal)) := by
  have hw : ∀ v : ℚ, 0 ≤ (1 - 2 / (1 + v ^ 2)) ^ 8 ∧ (1 - 2 / (1 + v ^ 2)) ^ 8 ≤ 1 := by
    intro v
    have hb := well_base_bounds v
    exact pow_eight_bounds (1 - 2 / (1 + v ^ 2)) hb.1 (le_of_lt hb.2)
  refine ⟨by simp [Eval, EvalAt, hA, index], fun v => ⟨well_num m hPow v, (hw v).1,
    (hw v).2, ?_⟩, (well_inf m hPow).1, (well_inf m hPow).2, well_nan m hNaN,
    fun c _ => well_range m hPow hNaN c⟩
  rw [pow_eq_zero_iff (by norm_num), well_base_eq_zero_iff]

theorem OpWell_Eval_unit_interval_or_nan_witness :
    (∀ u : ℚ, nanMath.Pow (num u) 8 = num (u ^ 8)) ∧ nanMath.Pow nan 8 = nan ∧
      Eval nanMath (OpColorMix [OpVarX, OpMod [OpVarX, OpVarY], OpConstant posInf]) 1 0
        = some [num 1, nan, posInf] ∧
      Eval nanMath (OpWell [OpColorMix [OpVarX, OpMod [OpVarX, OpVarY],
          OpConstant posInf]]) 1 0
        = some [well nanMath (num 1), well nanMath nan, well nanMath posInf] ∧
      well nanMath (num 1) = num ((1 - 2 / (1 + 1 ^ 2)) ^ 8) ∧
      well nanMath nan = nan ∧ well nanMath posInf = 1 :=
  have hA : Eval nanMath (OpColorMix [OpVarX, OpMod [OpVarX, OpVarY],
      OpConstant posInf]) 1 0 = some [num 1, nan, posInf] := by
    simp [Eval, EvalAt, index, nanMath_Mod_zero, FloatVal.one_eq]
  have H := OpWell_Eval_unit_interval_or_nan nanMath nanMath_Pow_num_eight
    nanMath_Pow_nan_eight
    (OpColorMix [OpVarX, OpMod [OpVarX, OpVarY], OpConstant posInf]) 1 0
    (num 1) nan posInf hA
  ⟨nanMath_Pow_num_eight, nanMath_Pow_nan_eight, hA, H.1, (H.2.1 1).1, H.2.2.2.2.1,
    H.2.2.1⟩

/-- C11, as stated, fails: in Mod(Mod(VarX, VarY), Constant 1/2) at (1, 0) the divisor 1/2
is non-zero in every channel, and the output is (NaN, NaN, NaN), because the dividend
`math.Mod(1, 0)` is NaN and `math.Mod(NaN, 1/2)` is NaN; for r = NaN neither |r| < |b| nor
the sign rule holds.  The same happens for an infinite dividend: Mod(VarX, Constant 1/2)
at x = +Inf is (NaN, NaN, NaN). -/
theorem OpMod_Eval_nan_dividend :
    Eval nanMath (OpMod [OpVarX, OpVarY]) 1 0 = some [nan, nan, nan] ∧
      Eval nanMath (OpConstant (num (1 / 2))) 1 0
        = some [num (1 / 2), num (1 / 2), num (1 / 2)] ∧
      num (1 / 2) ≠ (0 : FloatVal) ∧
      Eval nanMath (OpMod [OpMod [OpVarX, OpVarY], OpConstant (num (1 / 2))]) 1 0
        = some [nan, nan, nan] ∧
      ¬ nanMath.Abs nan < nanMath.Abs (num (1 / 2)) ∧
      ¬ (nan = (0 : FloatVal) ∨ ((0 : FloatVal) < nan ∧ (0 : FloatVal) < nan) ∨
        (nan < (0 : FloatVal) ∧ nan < (0 : FloatVal))) ∧
      Eval nanMath (OpMod [OpVarX, OpConstant (num (1 / 2))]) posInf 0
        = some [nan, nan, nan] := by
  refine ⟨?_, by simp [Eval], ?_, ?_, ?_, ?_, ?_⟩
  · simp [Eval, EvalAt, index, nanMath_Mod_zero]
  · rw [FloatVal.zero_eq]
    simp
  · simp [Eval, EvalAt, index, nanMath_Mod_zero, nanMath_Mod_nan_left]
  · exact FloatVal.not_nan_lt _
  · rintro (h | h | h)
    · rw [FloatVal.zero_eq] at h
      cases h
    · exact FloatVal.not_lt_nan _ h.1
    · exact FloatVal.not_nan_lt _ h.1
  · simp [Eval, EvalAt, index, (nanMath_Mod_inf_left _).1]

/-- C11, amended: a Mod node with children A and B evaluates in every channel to
`math.Mod(a, b)` of A's channel a and B's channel b.  Where a is a finite number and b is a
non-zero finite number, this is the truncated-division remainder
r = a - b * trunc(a / b), with |r| < |b| and r zero or of the sign of the dividend a.
Where a is NaN or an infinity, or b is NaN or zero, the output channel is NaN.  Where a is
a finite number and b is an infinity, the output channel is a. -/
theorem OpMod_Eval_truncated_remainder_or_nan (m : GoMath FloatVal)
    (hMod : ∀ a b : ℚ, b ≠ 0 → m.Mod (num a) (num b) = num (truncMod a b))
    (hZero : ∀ c, m.Mod c 0 = nan) (hLeft : ∀ c, m.Mod nan c = nan)
    (hRight : ∀ c, m.Mod c nan = nan)
    (hInfLeft : ∀ c, m.Mod posInf c = nan ∧ m.Mod negInf c = nan)
    (hInfRight : ∀ a : ℚ, m.Mod (num a) posInf = num a ∧ m.Mod (num a) negInf = num a)
    (A B : Operation FloatVal)
    (x y a0 a1 a2 b0 b1 b2 : FloatVal) (hA : Eval m A x y = some [a0, a1, a2])
    (hB : Eval m B x y = some [b0, b1, b2]) :
    Eval m (OpMod [A, B]) x y = some [m.Mod a0 b0, m.Mod a1 b1, m.Mod a2 b2] ∧
      ∀ ab ∈ [(a0, b0), (a1, b1), (a2, b2)],
        (∀ a b : ℚ, ab = (num a, num b) → b ≠ 0 →
          m.Mod ab.1 ab.2 = num (a - b * trunc (a / b)) ∧
          |a - b * trunc (a / b)| < |b| ∧
          (a - b * trunc (a / b) = 0 ∨ (0 < a - b * trunc (a / b) ∧ 0 < a) ∨
            (a - b * trunc (a / b) < 0 ∧ a < 0))) ∧
        (ab.1 = nan ∨ ab.1 = posInf ∨ ab.1 = negInf ∨ ab.2 = nan ∨ ab.2 = 0 →
          m.Mod ab.1 ab.2 = nan) ∧
        (∀ a : ℚ, ab.1 = num a → ab.2 = posInf ∨ ab.2 = negInf →
          m.Mod ab.1 ab.2 = num a) := by
  refine ⟨by simp [Eval, EvalAt, hA, hB, index], ?_⟩
  rintro ⟨p, q⟩ -
  refine ⟨?_, ?_, ?_⟩
  · rintro a b hab hb
    cases hab
    exact ⟨hMod a b hb, truncMod_spec a b hb⟩
  · rintro (h | h | h | h | h)
    · simp only at h
      rw [h]
      exact hLeft q
    · simp only at h
      rw [h]
      exact (hInfLeft q).1
    · simp only at h
      rw [h]
      exact (hInfLeft q).2
    · simp only at h
      rw [h]
      exact hRight p
    · simp only at h
      rw [h]
      exact hZero p
  · rintro a ha (h | h)
    · simp only at ha h
      rw [ha, h]
      exact (hInfRight a).1
    · simp only at ha h
      rw [ha, h]
      exact (hInfRight a).2

theorem OpMod_Eval_truncated_remainder_or_nan_witness :
    (∀ a b : ℚ, b ≠ 0 → nanMath.Mod (num a) (num b) = num (truncMod a b)) ∧
      (∀ c, nanMath.Mod c 0 = nan) ∧ (∀ c, nanMath.Mod nan c = nan) ∧
      (∀ c, nanMath.Mod c nan = nan) ∧
      (∀ c, nanMath.Mod posInf c = nan ∧ nanMath.Mod negInf c = nan) ∧
      (∀ a : ℚ, nanMath.Mod (num a) posInf = num a ∧ nanMath.Mod (num a) negInf = num a) ∧
      Eval nanMath (OpColorMix [OpVarX, OpMod [OpVarX, OpVarY], OpConstant (num 7)])
          (num (-7)) 0
        = some [num (-7), nan, num 7] ∧
      Eval nanMath (OpColorMix [OpConstant (num 3), OpVarX, OpConstant negInf])
          (num (-7)) 0
        = some [num 3, num (-7), negInf] ∧
      Eval nanMath (OpMod [OpColorMix [OpVarX, OpMod [OpVarX, OpVarY], OpConstant (num 7)],
          OpColorMix [OpConstant (num 3), OpVarX, OpConstant negInf]]) (num (-7)) 0
        = some [nanMath.Mod (num (-7)) (num 3), nanMath.Mod nan (num (-7)),
            nanMath.Mod (num 7) negInf] ∧
      nanMath.Mod (num (-7)) (num 3) = num (-7 - 3 * trunc (-7 / 3)) ∧
      |(-7 : ℚ) - 3 * trunc (-7 / 3)| < |(3 : ℚ)| ∧
      nanMath.Mod nan (num (-7)) = nan ∧
      nanMath.Mod (num 7) negInf = num 7 :=
  have hA : Eval nanMath (OpColorMix [OpVarX, OpMod [OpVarX, OpVarY],
      OpConstant (num 7)]) (num (-7)) 0 = some [num (-7), nan, num 7] := by
    simp [Eval, EvalAt, index, nanMath_Mod_zero]
  have hB : Eval nanMath (OpColorMix [OpConstant (num 3), OpVarX,
      OpConstant negInf]) (num (-7)) 0 = some [num 3, num (-7), negInf] := by
    simp [Eval, EvalAt, index]
  have H := OpMod_Eval_truncated_remainder_or_nan nanMath nanMath_Mod_num nanMath_Mod_zero
    nanMath_Mod_nan_left nanMath_Mod_nan_right nanMath_Mod_inf_left nanMath_Mod_inf_right
    (OpColorMix [OpVarX, OpMod [OpVarX, OpVarY], OpConstant (num 7)])
    (OpColorMix [OpConstant (num 3), OpVarX, OpConstant negInf]) (num (-7)) 0
    (num (-7)) nan (num 7) (num 3) (num (-7)) negInf hA hB
  have H0 := (H.2 (num (-7), num 3) (by simp)).1 (-7) 3 rfl (by norm_num)
  have H1 := (H.2 (nan, num (-7)) (by simp)).2.1 (Or.inl rfl)
  have H2 := (H.2 (num 7, negInf) (by simp)).2.2 7 rfl (Or.inr rfl)
  ⟨nanMath_Mod_num, nanMath_Mod_zero, nanMath_Mod_nan_left, nanMath_Mod_nan_right,
    nanMath_Mod_inf_left, nanMath_Mod_inf_right, hA, hB, H.1, H0.1, H0.2.1, H1, H2⟩

end FloatValTheorems

section BuilderTheorems

variable {G F : Type}

open Operation

/-- The loop over the children returns as many nodes as asked for, each with the property
that every call of the step function establishes. -/
theorem buildChildren_spec (b : G → Except Failure (Operation F × G))
    (P : Operation F → Prop) (hb : ∀ g, ∃ op g', b g = .ok (op, g') ∧ P op) :
    ∀ (n : Nat) (g : G), ∃ cs g', buildChildren b n g = .ok (cs, g') ∧ cs.length = n ∧
      ∀ c ∈ cs, P c
  | 0, g => ⟨[], g, rfl, rfl, fun _ h => absurd h (List.not_mem_nil _)⟩
  | n + 1, g => by
      obtain ⟨c, g1, h1, hc⟩ := hb g
      obtain ⟨cs, g2, h2, hlen, hcs⟩ := buildChildren_spec b P hb n g1
      refine ⟨c :: cs, g2, ?_, by simp [hlen], ?_⟩
      · simp [buildChildren, h1, h2]
      · intro c' hc'
        rcases List.mem_cons.mp hc' with rfl | h
        · exact hc
        · exact hcs c' h

/-- A node without children and with `InputsCount()` 0 is a well-formed tree. -/
theorem wellFormed_of_inputs_nil (op : Operation F) (hin : op.inputs = [])
    (hc : op.InputsCount = 0) : wellFormed op = true := by
  cases op <;> simp only [InputsCount] at hc <;> first
    | rfl
    | omega

/-- A list of well-formed trees. -/
theorem allWellFormed_of_forall :
    ∀ cs : List (Operation F), (∀ c ∈ cs, wellFormed c = true) → allWellFormed cs = true
  | [], _ => rfl
  | c :: cs, h => by
      simp only [allWellFormed, Bool.and_eq_true]
      exact ⟨h c (List.mem_cons_self _ _),
        allWellFormed_of_forall cs (fun c' hc' => h c' (List.mem_cons_of_mem _ hc'))⟩

/-- The depth of a composite node after its children are attached. -/
theorem treeDepth_SetInputs (op : Operation F) (hc : 1 ≤ op.InputsCount)
    (cs : List (Operation F)) : treeDepth (op.SetInputs cs) = 1 + maxTreeDepth cs := by
  cases op <;> simp only [InputsCount] at hc <;> first
    | omega
    | simp [SetInputs, treeDepth]

/-- The largest depth in a non-empty list of trees of the same depth. -/
theorem maxTreeDepth_of_forall (d : Nat) :
    ∀ cs : List (Operation F), 1 ≤ cs.length → (∀ c ∈ cs, treeDepth c = d) →
      maxTreeDepth cs = d
  | [], h, _ => absurd h (by simp)
  | [c], _, hd => by
      simp [maxTreeDepth, hd c (List.mem_singleton_self c)]
  | c :: c' :: cs, _, hd => by
      have h1 := hd c (List.mem_cons_self _ _)
      have h2 := maxTreeDepth_of_forall d (c' :: cs) (by simp)
        (fun x hx => hd x (List.mem_cons_of_mem _ hx))
      simp only [maxTreeDepth] at h2 ⊢
      rw [h1, h2]
      exact max_self d

/-- One step of the builder at a depth above 1: the root is the node `pickOperation`
returns, with as many children attached as its `InputsCount()`, each built at the depth
reduced by 1. -/
theorem build_step (R : Rand G F) (hR : IntnInRange R) (g : G) (depth : Int)
    (hd : depth > 1) (P : Operation F → Prop)
    (hchild : ∀ g, ∃ op g', build R g (depth - 1) = .ok (op, g') ∧ P op) :
    ∃ op0 g1 cs g2, pickOperation R g depth = .ok (op0, g1) ∧ op0.inputs = [] ∧
      1 ≤ op0.InputsCount ∧ cs.length = op0.InputsCount ∧ (∀ c ∈ cs, P c) ∧
      build R g depth = .ok (op0.SetInputs cs, g2) := by
  obtain ⟨op0, g1, h1, hin, hc, -, -⟩ := pickOperation_composite R hR g depth hd
  obtain ⟨cs, g2, h2, hlen, hcs⟩ :=
    buildChildren_spec (fun g => build R g (depth - 1)) P hchild op0.InputsCount g1
  refine ⟨op0, g1, cs, g2, h1, hin, hc, hlen, hcs, ?_⟩
  rw [build, dif_pos hd]
  simp only [h1, h2]

/-- The builder returns a well-formed tree whose depth is the depth asked for (1 when the
depth asked for is below 1). -/
theorem build_spec (R : Rand G F) (hR : IntnInRange R) :
    ∀ (n : Nat) (depth : Int), depth ≤ n → ∀ g : G, ∃ op g',
      build R g depth = .ok (op, g') ∧ treeDepth op = max 1 depth.toNat ∧
      wellFormed op = true := by
  intro n
  induction n with
  | zero =>
    intro depth hdn g
    have hd : ¬ depth > 1 := by
      simp only [Nat.cast_zero] at hdn
      omega
    obtain ⟨op, g', h1, hin, hc, -, -⟩ := pickOperation_leaf R hR g depth hd
    refine ⟨op, g', ?_, ?_, wellFormed_of_inputs_nil op hin hc⟩
    · rw [build, dif_neg hd, h1]
    · rw [treeDepth_of_inputs_nil op hin]
      omega
  | succ k ih =>
    intro depth hdn g
    by_cases hd : depth > 1
    · have hk : depth - 1 ≤ (k : Int) := by
        push_cast at hdn
        omega
      obtain ⟨op0, g1, cs, g2, -, -, hc, hlen, hcs, hb⟩ :=
        build_step R hR g depth hd
          (fun c => treeDepth c = max 1 (depth - 1).toNat ∧ wellFormed c = true)
          (fun g => ih (depth - 1) hk g)
      refine ⟨op0.SetInputs cs, g2, hb, ?_, ?_⟩
      · rw [treeDepth_SetInputs op0 hc cs,
          maxTreeDepth_of_forall (max 1 (depth - 1).toNat) cs (by omega)
            (fun c hc' => (hcs c hc').1)]
        omega
      · exact wellFormed_SetInputs op0 cs hlen
          (allWellFormed_of_forall cs (fun c hc' => (hcs c hc').2))
    · obtain ⟨op, g', h1, hin, hc, -, -⟩ := pickOperation_leaf R hR g depth hd
      refine ⟨op, g', ?_, ?_, wellFormed_of_inputs_nil op hin hc⟩
      · rw [build, dif_neg hd, h1]
      · rw [treeDepth_of_inputs_nil op hin]
        omega

/-- C19: for every generator state and every depth N above 1, the builder returns a tree
whose maximum depth from the root to a leaf is at most N (it is exactly N); its root is
the node `pickOperation` returns, with `InputsCount()` children attached, each built at
depth N - 1, and the tree is well formed. -/
theorem build_treeDepth_le (R : Rand G F) (hR : IntnInRange R) (g : G) (N : Int)
    (hN : N > 1) :
    ∃ op g', build R g N = .ok (op, g') ∧ (treeDepth op : Int) ≤ N ∧
      (treeDepth op : Int) = N ∧ wellFormed op = true ∧
      ∃ op0 g1 cs, pickOperation R g N = .ok (op0, g1) ∧ op = op0.SetInputs cs ∧
        cs.length = op0.InputsCount ∧ 1 ≤ cs.length ∧
        ∀ c ∈ cs, (treeDepth c : Int) = N - 1 := by
  have hchild : ∀ g, ∃ op g', build R g (N - 1) = .ok (op, g') ∧
      (treeDepth op = max 1 (N - 1).toNat ∧ wellFormed op = true) :=
    fun g => build_spec R hR (N - 1).toNat (N - 1) (by omega) g
  obtain ⟨op0, g1, cs, g2, h1, -, hc, hlen, hcs, hb⟩ :=
    build_step R hR g N hN _ hchild
  have hdepth : treeDepth (op0.SetInputs cs) = 1 + max 1 (N - 1).toNat := by
    rw [treeDepth_SetInputs op0 hc cs,
      maxTreeDepth_of_forall (max 1 (N - 1).toNat) cs (by omega)
        (fun c hc' => (hcs c hc').1)]
  refine ⟨op0.SetInputs cs, g2, hb, ?_, ?_, ?_, op0, g1, cs, h1, rfl, hlen, by omega, ?_⟩
  · rw [hdepth]
    omega
  · rw [hdepth]
    omega
  · exact wellFormed_SetInputs op0 cs hlen
      (allWellFormed_of_forall cs (fun c hc' => (hcs c hc').2))
  · intro c hc'
    rw [(hcs c hc').1]
    omega

theorem build_treeDepth_le_witness :
    IntnInRange counterRand ∧ (3 : Int) > 1 ∧
      ∃ (op : Operation ℚ) (g' : ℕ), build counterRand 0 3 = .ok (op, g') ∧
        (treeDepth op : Int) ≤ 3 ∧ (treeDepth op : Int) = 3 ∧ wellFormed op = true ∧
        ∃ (op0 : Operation ℚ) (g1 : ℕ) (cs : List (Operation ℚ)),
          pickOperation counterRand 0 3 = .ok (op0, g1) ∧ op = op0.SetInputs cs ∧
          cs.length = op0.InputsCount ∧ 1 ≤ cs.length ∧
          ∀ c ∈ cs, (treeDepth c : Int) = 3 - 1 :=
  ⟨counterRand_inRange, by decide,
    build_treeDepth_le counterRand counterRand_inRange 0 3 (by decide)⟩

end BuilderTheorems

end RandomArt
